import Mathlib

/-!
Verification of the LiSR-Blender map-importer addon.

This development shallowly embeds the data-munging core of the addon
(`src/LiSR_mapimporter.py`, with the older `src/main.py` variant where a claim
refers to it) and proves or refutes the frozen specification claims about it.

Modelling conventions, used throughout:
* JSON values are the inductive `JValue`; Python `dict.get` is association-list
  lookup; Python truthiness is `truthy`.
* Python floats are modelled as rationals `ℚ`; the numbers appearing in the
  claims are exact in both IEEE doubles and `ℚ`.
* File-system and image access (`os.path.exists`, file reads, `bpy` image
  pixels) are passed in as explicit environment functions.
* A Python expression that would raise `TypeError`/`AttributeError` because a
  JSON field has an unexpected shape makes the embedded builder return `none`.
  (In a few spots Python would instead store the ill-typed value and fault
  later, at the host placement call; no claim exercises those corners, and the
  model fails at build time there instead.)
* Where Python would raise an exception that a claim is about
  (`parse_props_file`), the embedding returns `Except.error`.
-/

namespace LiSR

/-- Single-character helper: the apostrophe (U+0027). -/
def apos : Char := Char.ofNat 39

/-! ## JSON value model -/

/-- A JSON value as produced by `json.load`: the entity records of a `.umap`
JSON export.  Numbers are modelled as rationals. -/
inductive JValue where
  | null
  | bool (b : Bool)
  | num (q : ℚ)
  | str (s : String)
  | arr (elems : List JValue)
  | obj (fields : List (String × JValue))
deriving Repr

/-- Python truthiness (`if not x`) for the JSON value model. -/
def truthy : JValue → Bool
  | .null => false
  | .bool b => b
  | .num q => q ≠ 0
  | .str s => s ≠ ""
  | .arr l => !l.isEmpty
  | .obj l => !l.isEmpty

/-- View a value as a dict; `none` models the `AttributeError` a `.get` call
on a non-dict would raise. -/
def asObj : JValue → Option (List (String × JValue))
  | .obj fields => some fields
  | _ => none

/-- `dict.get(k)` (default `None`): first binding wins, as in a Python dict
whose keys are unique. -/
def oget (fields : List (String × JValue)) (k : String) : Option JValue :=
  fields.lookup k

/-- `dict.get(k, default)` for a field that the code then uses as a string. -/
def getStrD (fields : List (String × JValue)) (k : String) (d : String) :
    Option String :=
  match oget fields k with
  | none => some d
  | some (.str s) => some s
  | some _ => none

/-- `dict.get(k, default)` for a field that the code then uses as a number. -/
def getNumD (fields : List (String × JValue)) (k : String) (d : ℚ) :
    Option ℚ :=
  match oget fields k with
  | none => some d
  | some (.num q) => some q
  | some _ => none

/-- `dict.get(k)` for a field the code immediately does arithmetic on
(missing key → `None` → `TypeError`). -/
def getNum (fields : List (String × JValue)) (k : String) : Option ℚ :=
  match oget fields k with
  | some (.num q) => some q
  | _ => none

/-- `dict.get(k, {})`: a missing key defaults to the empty dict. -/
def getObjD (fields : List (String × JValue)) (k : String) : JValue :=
  match oget fields k with
  | none => .obj []
  | some v => v

/-! ## Shared string helpers (Python `str` methods) -/

/-- `needle in hay` for Python strings (substring containment). -/
def listContainsSub (needle : List Char) : List Char → Bool
  | [] => needle.isEmpty
  | hay@(_ :: t) => needle.isPrefixOf hay || listContainsSub needle t

/-- Python `s.split(sep)` for a one-character separator: keeps empty parts,
`"".split(sep) == ['']`. -/
def pySplitChar (sep : Char) : List Char → List (List Char)
  | [] => [[]]
  | c :: rest =>
    let r := pySplitChar sep rest
    if c = sep then [] :: r
    else
      match r with
      | h :: t => (c :: h) :: t
      | [] => [[c]]

/-- Python `s.strip()` (ASCII whitespace; the repository's data is ASCII). -/
def pyStrip (l : List Char) : List Char :=
  ((l.dropWhile Char.isWhitespace).reverse.dropWhile Char.isWhitespace).reverse

/-- Python `s.endswith("R")`. -/
def pyEndsWithR (l : List Char) : Bool :=
  l.getLast? = some 'R'

/-- A 3-component vector of exact rationals (Blender positions/rotations/
scales as built by the importer, before any float rounding). -/
structure Vec3 where
  x : ℚ
  y : ℚ
  z : ℚ
deriving Repr, DecidableEq

/-! ## `split_object_path` (same definition in `LiSR_mapimporter.py` and
`main.py`) -/

/-- `split_object_path`: split on `"."`; when there is more than one part,
return the first, otherwise the input unchanged. -/
def split_object_path (object_path : String) : String :=
  let path_parts := pySplitChar '.' object_path.data
  match path_parts with
  | p₀ :: _ :: _ => String.mk p₀
  | _ => object_path

/-! ## Entity record builders -/

/-- The record built by `StaticMesh.__init__` / `SkeletalMesh.__init__`
(the skeletal variant adds `anim_sequences`). -/
structure StaticMeshRec where
  entity_name : String
  import_path : String
  pos : Vec3
  rot : Vec3
  scale : Vec3
  invalid : Bool
  skip_reason : String
deriving Repr, DecidableEq

/-- The transform-conversion tail shared by `StaticMesh.__init__` and
`SkeletalMesh.__init__` (lines 508–529 resp. 573–594): position `/100`,
Y negated, times scale factor; rotation `(Roll, -Pitch, -Yaw)`; scale per
axis times scale factor, defaulting to the uniform scale factor. -/
def convertTransform (props : List (String × JValue)) (scale_factor : ℚ) :
    Option (Vec3 × Vec3 × Vec3) := do
  let pos ← match oget props "RelativeLocation" with
    | some locV =>
      if truthy locV then do
        let loc ← asObj locV
        let x ← getNum loc "X"
        let y ← getNum loc "Y"
        let z ← getNum loc "Z"
        pure (⟨x / 100 * scale_factor, y / (-100) * scale_factor,
               z / 100 * scale_factor⟩ : Vec3)
      else pure (⟨0, 0, 0⟩ : Vec3)
    | none => pure (⟨0, 0, 0⟩ : Vec3)
  let rot ← match oget props "RelativeRotation" with
    | some rotV =>
      if truthy rotV then do
        let r ← asObj rotV
        let roll ← getNum r "Roll"
        let pitch ← getNum r "Pitch"
        let yaw ← getNum r "Yaw"
        pure (⟨roll, pitch * (-1), yaw * (-1)⟩ : Vec3)
      else pure (⟨0, 0, 0⟩ : Vec3)
    | none => pure (⟨0, 0, 0⟩ : Vec3)
  let scale ← match oget props "RelativeScale3D" with
    | some scV =>
      if truthy scV then do
        let sc ← asObj scV
        let x ← getNumD sc "X" 1
        let y ← getNumD sc "Y" 1
        let z ← getNumD sc "Z" 1
        pure (⟨x * scale_factor, y * scale_factor, z * scale_factor⟩ : Vec3)
      else pure (⟨scale_factor, scale_factor, scale_factor⟩ : Vec3)
    | none => pure (⟨scale_factor, scale_factor, scale_factor⟩ : Vec3)
  pure (pos, rot, scale)

/-- `StaticMesh.__init__(json_entity, base_dir, asset_sub_dir, scale_factor)`. -/
def mkStaticMesh (fileExists : String → Bool) (base_dir asset_sub_dir : String)
    (scale_factor : ℚ) (json_entity : JValue) : Option StaticMeshRec := do
  let ent ← asObj json_entity
  let entity_name ← getStrD ent "Outer" "Error"
  let invalidRec : String → StaticMeshRec := fun reason =>
    { entity_name, import_path := "", pos := ⟨0, 0, 0⟩, rot := ⟨0, 0, 0⟩,
      scale := ⟨1, 1, 1⟩, invalid := true, skip_reason := reason }
  match oget ent "Properties" with
  | none => pure (invalidRec "no properties")
  | some propsV =>
    if !truthy propsV then pure (invalidRec "no properties")
    else do
      let props ← asObj propsV
      match oget props "StaticMesh" with
      | none => pure (invalidRec "no static mesh")
      | some smV =>
        if !truthy smV then pure (invalidRec "no static mesh")
        else do
          let sm ← asObj smV
          let opGuard : Option (Option String) :=
            match oget sm "ObjectPath" with
            | none => some none
            | some (.str s) => some (some s)
            | some _ => none
          let op? ← opGuard
          match op? with
          | none => pure (invalidRec "no object path")
          | some object_path =>
            if object_path = "" then pure (invalidRec "no object path")
            else if listContainsSub "BasicShapes".data object_path.data then
              pure (invalidRec "basic shape")
            else do
              let objpath := split_object_path object_path
              let import_path := base_dir ++ asset_sub_dir ++ objpath ++ ".gltf"
              if !fileExists import_path then
                pure { invalidRec "file not found" with import_path }
              else do
                let (pos, rot, scale) ← convertTransform props scale_factor
                pure { entity_name, import_path, pos, rot, scale,
                       invalid := false, skip_reason := "" }

/-- First match of the pattern `AnimSequence'([^']+)'` in a string
(`re.search`: leftmost position at which the whole pattern matches). -/
def animTag : List Char := "AnimSequence".data ++ [apos]

def animSearch : List Char → Option String
  | [] => none
  | s@(_ :: t) =>
    if animTag.isPrefixOf s then
      let rest := s.drop animTag.length
      let cap := rest.takeWhile (· ≠ apos)
      if !cap.isEmpty && (rest.drop cap.length).head? = some apos then
        some (String.mk cap)
      else animSearch t
    else animSearch t

mutual

/-- `SkeletalMesh._extract_anim_references`: recursive walk over all nested
property values, appending every `AnimSequence'...'` `ObjectName` match in
traversal order.  (A non-string `ObjectName` would raise in Python; the model
treats it as no match — no claim exercises that corner.) -/
def extractAnimNames : JValue → List String
  | .obj fields =>
    let objName : String :=
      match fields.lookup "ObjectName" with
      | some (.str s) => s
      | _ => ""
    let here : List String :=
      if listContainsSub animTag objName.data then
        match animSearch objName.data with
        | some nm => [nm]
        | none => []
      else []
    here ++ extractAnimFields fields
  | .arr items => extractAnimList items
  | _ => []

def extractAnimFields : List (String × JValue) → List String
  | [] => []
  | (_, v) :: rest => extractAnimNames v ++ extractAnimFields rest

def extractAnimList : List JValue → List String
  | [] => []
  | v :: vs => extractAnimNames v ++ extractAnimList vs

end

/-- The record built by `SkeletalMesh.__init__`. -/
structure SkeletalMeshRec where
  entity_name : String
  import_path : String
  pos : Vec3
  rot : Vec3
  scale : Vec3
  invalid : Bool
  skip_reason : String
  anim_sequences : List String
deriving Repr, DecidableEq

/-- `SkeletalMesh.__init__(json_entity, base_dir, asset_sub_dir, scale_factor)`. -/
def mkSkeletalMesh (fileExists : String → Bool) (base_dir asset_sub_dir : String)
    (scale_factor : ℚ) (json_entity : JValue) : Option SkeletalMeshRec := do
  let ent ← asObj json_entity
  let entity_name ← getStrD ent "Outer" "Error"
  let invalidRec : String → SkeletalMeshRec := fun reason =>
    { entity_name, import_path := "", pos := ⟨0, 0, 0⟩, rot := ⟨0, 0, 0⟩,
      scale := ⟨1, 1, 1⟩, invalid := true, skip_reason := reason,
      anim_sequences := [] }
  match oget ent "Properties" with
  | none => pure (invalidRec "no properties")
  | some propsV =>
    if !truthy propsV then pure (invalidRec "no properties")
    else do
      let props ← asObj propsV
      match oget props "SkeletalMesh" with
      | none => pure (invalidRec "no skeletal mesh")
      | some smV =>
        if !truthy smV then pure (invalidRec "no skeletal mesh")
        else do
          let sm ← asObj smV
          let opGuard : Option (Option String) :=
            match oget sm "ObjectPath" with
            | none => some none
            | some (.str s) => some (some s)
            | some _ => none
          let op? ← opGuard
          match op? with
          | none => pure (invalidRec "no object path")
          | some object_path =>
            if object_path = "" then pure (invalidRec "no object path")
            else do
              let objpath := split_object_path object_path
              let import_path := base_dir ++ asset_sub_dir ++ objpath ++ ".gltf"
              if !fileExists import_path then
                pure { invalidRec "file not found" with import_path }
              else do
                let anim_sequences := extractAnimNames propsV
                let (pos, rot, scale) ← convertTransform props scale_factor
                pure { entity_name, import_path, pos, rot, scale,
                       invalid := false, skip_reason := "", anim_sequences }

/-- The record built by `GameLight.__init__`.  Note: the Python class sets no
`skip_reason` attribute at all — there is no reason field to model. -/
structure GameLightRec where
  entity_name : String
  type : String
  pos : Vec3
  rot : Vec3
  scale : Vec3
  invalid : Bool
deriving Repr, DecidableEq

/-- `GameLight.__init__(json_entity)`.  The constructor takes no scale
factor, and none is applied to position or scale. -/
def mkGameLight (json_entity : JValue) : Option GameLightRec := do
  let ent ← asObj json_entity
  let entity_name ← getStrD ent "Outer" "Error"
  let type ← getStrD ent "Type" "SpotLightComponent"
  match oget ent "Properties" with
  | none =>
    pure { entity_name, type, pos := ⟨0, 0, 0⟩, rot := ⟨0, 0, 0⟩,
           scale := ⟨1, 1, 1⟩, invalid := true }
  | some propsV =>
    if !truthy propsV then
      pure { entity_name, type, pos := ⟨0, 0, 0⟩, rot := ⟨0, 0, 0⟩,
             scale := ⟨1, 1, 1⟩, invalid := true }
    else do
      let props ← asObj propsV
      let pos ← match oget props "RelativeLocation" with
        | some locV =>
          if truthy locV then do
            let loc ← asObj locV
            let x ← getNum loc "X"
            let y ← getNum loc "Y"
            let z ← getNum loc "Z"
            pure (⟨x / 100, y / (-100), z / 100⟩ : Vec3)
          else pure (⟨0, 0, 0⟩ : Vec3)
        | none => pure (⟨0, 0, 0⟩ : Vec3)
      let rot ← match oget props "RelativeRotation" with
        | some rotV =>
          if truthy rotV then do
            let r ← asObj rotV
            let roll ← getNum r "Roll"
            let pitch ← getNum r "Pitch"
            let yaw ← getNum r "Yaw"
            pure (⟨roll, pitch * (-1), yaw * (-1)⟩ : Vec3)
          else pure (⟨0, 0, 0⟩ : Vec3)
        | none => pure (⟨0, 0, 0⟩ : Vec3)
      let scale ← match oget props "RelativeScale3D" with
        | some scV =>
          if truthy scV then do
            let sc ← asObj scV
            let x ← getNumD sc "X" 1
            let y ← getNumD sc "Y" 1
            let z ← getNumD sc "Z" 1
            pure (⟨x, y, z⟩ : Vec3)
          else pure (⟨1, 1, 1⟩ : Vec3)
        | none => pure (⟨1, 1, 1⟩ : Vec3)
      pure { entity_name, type, pos, rot, scale, invalid := false }

/-- The record built by `GameSound.__init__`.  The class initializes
`rot = [0, 0, 0]` and never updates it, and has no scale attribute. -/
structure GameSoundRec where
  entity_name : String
  pos : Vec3
  rot : Vec3
  audio_id : String
  ak_event_path : String
  inner_radius : ℚ
  outer_radius : ℚ
  invalid : Bool
deriving Repr, DecidableEq

/-- `GameSound.__init__(json_entity, component_lookup, scale_factor)`:
`invalid` is initialized `False` and never set; position is read from the
companion scene component, with `/100`, Y negation and the scale factor. -/
def mkGameSound (component_lookup : String → Option JValue)
    (scale_factor : ℚ) (json_entity : JValue) : Option GameSoundRec := do
  let ent ← asObj json_entity
  let entity_name ← getStrD ent "Name" "Error"
  let props ← asObj (getObjD ent "Properties")
  let audio_id ← getStrD props "Audio_ID" ""
  let inner_radius ← getNumD props "InnerRadius" 200
  let outer_radius ← getNumD props "OuterRadius" 1000
  let akEvent ← asObj (getObjD props "AkEvent")
  let ak_event_path ← getStrD akEvent "ObjectPath" ""
  let pos ← match component_lookup entity_name with
    | some comp => do
      let compFields ← asObj comp
      let comp_props ← asObj (getObjD compFields "Properties")
      let loc ← asObj (getObjD comp_props "RelativeLocation")
      let x ← getNumD loc "X" 0
      let y ← getNumD loc "Y" 0
      let z ← getNumD loc "Z" 0
      pure (⟨x / 100 * scale_factor, y / (-100) * scale_factor,
             z / 100 * scale_factor⟩ : Vec3)
    | none => pure (⟨0, 0, 0⟩ : Vec3)
  pure { entity_name, pos, rot := ⟨0, 0, 0⟩, audio_id, ak_event_path,
         inner_radius, outer_radius, invalid := false }

/-! ## Placement gates (`MapImporter.modal` per-entity handlers) -/

/-- `MapImporter._light_types`. -/
def light_types : List String :=
  ["SpotLightComponent", "AnimatedLightComponent", "PointLightComponent"]

/-- A placed light object (`GameLight.import_light`): name, Blender light
type, and the transform handed to the host (rotation still in degrees; the
host call applies `math.radians`). -/
structure LightObj where
  name : String
  light_type : String
  pos : Vec3
  rot : Vec3
  scale : Vec3
deriving Repr, DecidableEq

/-- `GameLight.import_light`: returns `None` when invalid; `SPOT` for
`SpotLightComponent`, otherwise `POINT` (also for every unrecognized type). -/
def importLight (l : GameLightRec) : Option LightObj :=
  if l.invalid then none
  else
    let light_type :=
      if l.type = "SpotLightComponent" then "SPOT"
      else if l.type = "PointLightComponent" then "POINT"
      else "POINT"
    some { name := l.entity_name, light_type, pos := l.pos, rot := l.rot,
           scale := l.scale }

/-- `MapImporter._import_mesh_entity` up to the placement decision: an
invalid record is returned as `None` and no host import happens. -/
def importMeshEntity (fileExists : String → Bool) (base_dir : String)
    (scale_factor : ℚ) (entity : JValue) : Option StaticMeshRec := do
  let static_mesh ← mkStaticMesh fileExists base_dir "" scale_factor entity
  if static_mesh.invalid then none else some static_mesh

/-- `MapImporter._import_skeletal_entity` up to the placement decision. -/
def importSkeletalEntity (fileExists : String → Bool) (base_dir : String)
    (scale_factor : ℚ) (entity : JValue) : Option SkeletalMeshRec := do
  let skeletal_mesh ← mkSkeletalMesh fileExists base_dir "" scale_factor entity
  if skeletal_mesh.invalid then none else some skeletal_mesh

/-- A placed speaker object (`MapImporter._import_sound_entity`). -/
structure SpeakerObj where
  name : String
  pos : Vec3
deriving Repr, DecidableEq

/-- `MapImporter._import_sound_entity` up to the placement decision: only an
`invalid` record is skipped; the speaker name is `audio_id or entity_name`.
(The audio-file resolution feeding the speaker's sound datablock is modelled
separately by the fuzzy matcher.) -/
def importSoundEntity (component_lookup : String → Option JValue)
    (scale_factor : ℚ) (entity : JValue) : Option SpeakerObj := do
  let sound ← mkGameSound component_lookup scale_factor entity
  if sound.invalid then none
  else some { name := if sound.audio_id ≠ "" then sound.audio_id
                      else sound.entity_name,
              pos := sound.pos }

/-! ## Legacy `.mat` texture-name parsing

`MaterialImporter.execute` (`LiSR_mapimporter.py` lines 1707–1728) and its
older variant in `main.py` (lines 352–369). -/

/-- The four texture names pulled out of a `.mat` file. -/
structure MatNames where
  diffuse : String
  normal : String
  spec : String
  rough : String
deriving Repr, DecidableEq

def matNamesInit : MatNames := ⟨"", "", "", ""⟩

/-- `line.startswith((p₁, p₂, ...))`. -/
def startsWithAny (line : String) (ps : List String) : Bool :=
  ps.any (fun p => p.data.isPrefixOf line.data)

/-- One iteration of the `.mat` line loop in `LiSR_mapimporter.py`:
filter on prefix, split on `=`, strip the value, then an `elif` chain keyed
on the exact text before the first `=`. -/
def matLineStep (st : MatNames) (line : String) : MatNames :=
  if startsWithAny line ["Diffuse", "Normal", "SpecPower", "Other["] then
    match pySplitChar '=' line.data with
    | key :: v :: _ =>
      let keyS := String.mk key
      let value := String.mk (pyStrip v)
      if keyS = "Diffuse" then { st with diffuse := value }
      else if keyS = "Normal" then { st with normal := value }
      else if keyS = "SpecPower" then { st with spec := value }
      else if "Other[".data.isPrefixOf key && pyEndsWithR (pyStrip v) then
        { st with rough := value }
      else st
    | _ => st
  else st

/-- The `.mat` loop over all lines followed by the roughness fallback
`if not rough_texturename and diffuse_texturename: rough = diffuse[:-1]+"R"`. -/
def parseMatFile (lines : List String) : MatNames :=
  let st := lines.foldl matLineStep matNamesInit
  if st.rough = "" && st.diffuse ≠ "" then
    { st with rough := st.diffuse.dropRight 1 ++ "R" }
  else st

/-- One iteration of the `.mat` line loop in `main.py`: separate `if`
statements, the `Other[`/roughness test uses the *unstripped* second split
component, and its `else` branch re-derives the roughness name from the
current diffuse name on every matched line. -/
def matLineStepLegacy (st : MatNames) (line : String) : MatNames :=
  if startsWithAny line ["Diffuse", "Normal", "SpecPower", "Other[0]"] then
    match pySplitChar '=' line.data with
    | key :: v :: _ =>
      let keyS := String.mk key
      let st1 := if keyS = "Diffuse" then { st with diffuse := String.mk (pyStrip v) } else st
      let st2 := if keyS = "Normal" then { st1 with normal := String.mk (pyStrip v) } else st1
      let st3 := if keyS = "SpecPower" then { st2 with spec := String.mk (pyStrip v) } else st2
      if "Other[".data.isPrefixOf key && pyEndsWithR v then
        { st3 with rough := String.mk (pyStrip v) }
      else
        { st3 with rough := st3.diffuse.dropRight 1 ++ "R" }
    | _ => st
  else st

/-- The `main.py` `.mat` loop over all lines (no separate fallback step). -/
def parseMatFileLegacy (lines : List String) : MatNames :=
  lines.foldl matLineStepLegacy matNamesInit

/-! ## Audio fuzzy matcher (`MapImporter._fuzzy_match_audio`) -/

/-- The stoplist of generic tokens removed from the keyword list. -/
def fuzzyStopWords : List String := ["a", "play", "s", "sfx", "amb"]

/-- Keyword extraction: underscore-split, keep tokens of length `> 1`,
lowercase, drop stoplist tokens. -/
def fuzzyKeywords (audio_id : String) : List String :=
  let kws := ((pySplitChar '_' audio_id.data).filter
      (fun t => t.length > 1)).map (fun t => String.mk (t.map Char.toLower))
  kws.filter (fun kw => !fuzzyStopWords.contains kw)

/-- The score of one indexed name: substring hits, plus (only when the
substring count is positive, as in the source) half a point per keyword that
equals a whole underscore-delimited segment. -/
def fuzzyScore (keywords : List String) (name : String) : ℚ :=
  let nameLower := name.data.map Char.toLower
  let c : ℕ := (keywords.filter (fun kw => listContainsSub kw.data nameLower)).length
  if 0 < c then
    let name_parts := (pySplitChar '_' nameLower).map String.mk
    let e : ℕ := (keywords.filter (fun kw => name_parts.contains kw)).length
    (c : ℚ) + (e : ℚ) * (1 / 2)
  else (c : ℚ)

/-- The best-score fold over the audio index (strict improvement, so the
first name attaining the maximum wins). -/
def fuzzyBest (keywords : List String) (index : List (String × String)) :
    ℚ × Option String :=
  index.foldl
    (fun acc np =>
      let s := fuzzyScore keywords np.1
      if acc.1 < s then (s, some np.2) else acc)
    (0, none)

/-- `MapImporter._fuzzy_match_audio(audio_id)` over an explicit audio index
(association list in iteration order). -/
def fuzzy_match_audio (audio_id : String) (index : List (String × String)) :
    Option String :=
  if audio_id = "" || index.isEmpty then none
  else
    let keywords := fuzzyKeywords audio_id
    if keywords.isEmpty then none
    else
      let best := fuzzyBest keywords index
      let min_required : ℕ := max 1 (keywords.length / 2)
      if (min_required : ℚ) ≤ best.1 then best.2 else none

/-! ## Sequence-track animation collection (`MapImporter._collect_anim_tracks`) -/

/-- One collected animation reference. -/
structure AnimTrack where
  name : String
  path : String
  group : String
  slot : String
deriving Repr, DecidableEq

/-- Python `str.find(sub)`: index of the first occurrence, as an option. -/
def firstIndexOfSub (needle : List Char) : List Char → Option ℕ
  | [] => if needle.isEmpty then some 0 else none
  | hay@(_ :: t) =>
    if needle.isPrefixOf hay then some 0
    else (firstIndexOfSub needle t).map (· + 1)

/-- The slice-based animation-name extraction in `_collect_anim_tracks`:
`start = find("AnimSequence'")+len`, `end = find("'", start)`, name is the
slice when `end > start`. -/
def collectName (objName : List Char) : Option String :=
  if listContainsSub animTag objName then
    match firstIndexOfSub animTag objName with
    | some i =>
      let rest := objName.drop (i + animTag.length)
      let cap := rest.takeWhile (· ≠ apos)
      if rest.any (· = apos) && !cap.isEmpty then some (String.mk cap)
      else none
    | none => none
  else none

/-- Process the `AnimSeqs` list of one `InterpTrackAnimControl` entity,
threading the `seen_paths` set (paths are recorded before the name check). -/
def collectSeqs (outer slot_name : String) :
    List String × List AnimTrack → List JValue → List String × List AnimTrack
  | acc, [] => acc
  | (seen, out), anim_seq :: rest =>
    let step : List String × List AnimTrack :=
      match asObj anim_seq with
      | none => (seen, out)
      | some seqFields =>
        match asObj (getObjD seqFields "AnimSeq") with
        | none => (seen, out)
        | some animRef =>
          let obj_path := (getStrD animRef "ObjectPath" "").getD ""
          let obj_name := (getStrD animRef "ObjectName" "").getD ""
          if obj_path = "" || seen.contains obj_path then (seen, out)
          else
            let seen' := seen ++ [obj_path]
            match collectName obj_name.data with
            | some anim_name =>
              (seen', out ++ [{ name := anim_name, path := obj_path,
                                group := outer, slot := slot_name }])
            | none => (seen', out)
    collectSeqs outer slot_name step rest

/-- One entity of the `_collect_anim_tracks` outer loop. -/
def collectTrackStep (acc : List String × List AnimTrack) (entity : JValue) :
    List String × List AnimTrack :=
  match asObj entity with
  | none => acc
  | some ent =>
    if (getStrD ent "Type" "").getD "" ≠ "InterpTrackAnimControl" then acc
    else
      let outer := (getStrD ent "Outer" "").getD ""
      match asObj (getObjD ent "Properties") with
      | none => acc
      | some props =>
        let slot_name := (getStrD props "SlotName" "").getD ""
        let anim_seqs : List JValue :=
          match oget props "AnimSeqs" with
          | some (.arr l) => l
          | _ => []
        collectSeqs outer slot_name acc anim_seqs

/-- `MapImporter._collect_anim_tracks(json_entities)`. -/
def collectAnimTracks (entities : List JValue) : List AnimTrack :=
  (entities.foldl collectTrackStep ([], [])).2

/-! ## Material dedup pass (`MaterialImporter.execute`, lines 1638–1778)

State model: `mats` is the snapshot `list(bpy.data.materials)` as a list of
(unique) names; `slots` is the flattened list of scene material slots, each
holding the name of its material (or `none`).  The loop repoints slots during
iteration using the up-front `material_to_slots` snapshot and defers removals
to the end; `bpy.data.materials.remove(mat, do_unlink=True)` clears any slot
still holding the removed material. -/

/-- `'WorldGridMaterial' in material.name`. -/
def isWorldGrid (m : String) : Bool :=
  listContainsSub "WorldGridMaterial".data m.data

/-- `material.name.split('.')[0]`. -/
def matBase (m : String) : String :=
  String.mk ((pySplitChar '.' m.data).headD [])

/-- `len(material.name.split('.')) > 1`. -/
def isDotted (m : String) : Bool :=
  match pySplitChar '.' m.data with
  | _ :: _ :: _ => true
  | _ => false

/-- One iteration of the material loop, restricted to its effect on slots and
the removal list (`origSlots` is the `material_to_slots` snapshot; `mats` the
live materials collection, unchanged until the deferred removals). -/
def matPassStep (origSlots : List (Option String)) (mats : List String)
    (acc : List (Option String) × List String) (m : String) :
    List (Option String) × List String :=
  let (cur, toRemove) := acc
  if isWorldGrid m then (cur, toRemove ++ [m])
  else if isDotted m then
    let base := matBase m
    if mats.contains base && base ≠ m then
      ((cur.zip origSlots).map
        (fun co => if co.2 = some m then some base else co.1),
       toRemove ++ [m])
    else (cur, toRemove)
  else (cur, toRemove)

/-- The deferred `bpy.data.materials.remove(mat, do_unlink=True)` loop:
each removed name disappears from the materials list and any slot still
holding it is cleared. -/
def applyRemovals (acc : List (Option String) × List String) :
    List String → List (Option String) × List String
  | [] => acc
  | r :: rest =>
    applyRemovals
      (acc.1.map (fun s => if s = some r then none else s),
       acc.2.filter (· ≠ r)) rest

/-- The whole dedup-relevant pass: loop over the materials snapshot, then the
deferred removals.  Returns (final slots, final materials). -/
def materialDedupPass (mats : List String) (slots : List (Option String)) :
    List (Option String) × List String :=
  let looped := mats.foldl (matPassStep slots mats) (slots, [])
  applyRemovals (looped.1, mats) looped.2

/-! ## Roughness-source resolution (`MaterialImporter.execute`, lines
1735–1768, and the wiring in `_setup_material_nodes`) -/

/-- `pixels[3::4]`: every fourth float starting at index 3 (the alpha
channel of an RGBA pixel buffer). -/
def alphaChannel : List ℚ → List ℚ
  | _ :: _ :: _ :: d :: rest => d :: alphaChannel rest
  | _ => []

def qListMin : List ℚ → ℚ
  | [] => 0
  | x :: xs => xs.foldl min x

def qListMax : List ℚ → ℚ
  | [] => 0
  | x :: xs => xs.foldl max x

/-- `has_alpha_variation(image_path)`: load the image (failure → `False`),
sample the first 1000 alpha values, and require a min–max range `> 0.1`. -/
def hasAlphaVariation (imageOf : String → Option (List ℚ)) (path : String) :
    Bool :=
  match imageOf path with
  | none => false
  | some pixels =>
    let alpha_samples := (alphaChannel pixels).take 1000
    if alpha_samples.isEmpty then false
    else decide (1 / 10 < qListMax alpha_samples - qListMin alpha_samples)

/-- The three values flowing from the roughness-priority block into
`_setup_material_nodes`. -/
structure RoughResolution where
  rough_texture_path : Option String
  normal_texture_path : Option String
  use_normal_alpha_roughness : Bool
deriving Repr, DecidableEq

/-- Lines 1735–1768 of `MaterialImporter.execute`: priority 1 (explicit
`RoughnessMap` texture param), priority 2 (`NormalMap+Roughness` normal-alpha
gating via `has_alpha_variation`), then the unconditional
`rough_texture_path = None` on line 1768. -/
def resolveRoughnessSources (imageOf : String → Option (List ℚ))
    (file_index : String → Option String)
    (texture_params : List (String × String))
    (rough0 normal0 : Option String) : RoughResolution :=
  let rp1 : Option String :=
    match texture_params.lookup "RoughnessMap" with
    | some props_rough_name =>
      match file_index (props_rough_name ++ ".tga") with
      | some p => some p
      | none => rough0
    | none => rough0
  let st2 : Option String × Option String × Bool :=
    match texture_params.lookup "NormalMap+Roughness" with
    | some props_normal_name =>
      let props_normal_path : Option String :=
        if props_normal_name ≠ "" then file_index (props_normal_name ++ ".tga")
        else none
      let check_normal_path : Option String :=
        match props_normal_path with
        | some p => some p
        | none => normal0
      match check_normal_path with
      | some cp =>
        if hasAlphaVariation imageOf cp then
          (none,
           (match props_normal_path with
            | some p => some p
            | none => normal0),
           true)
        else (rp1, normal0, false)
      | none => (rp1, normal0, false)
    | none => (rp1, normal0, false)
  { rough_texture_path := none,
    normal_texture_path := st2.2.1,
    use_normal_alpha_roughness := st2.2.2 }

/-- What ends up connected to the Principled BSDF's `Roughness` input in
`_setup_material_nodes`. -/
inductive RoughnessInput where
  | unconnected
  | normalAlpha (normal_path : String)
  | textureColor (rough_path : String)
deriving Repr, DecidableEq

/-- The roughness wiring of `_setup_material_nodes`: the normal texture's
alpha when a normal texture exists and `use_normal_alpha_roughness` is set;
the roughness texture's color when a roughness path was passed and the flag is
unset; else nothing. -/
def shaderRoughnessInput (res : RoughResolution) : RoughnessInput :=
  match res.normal_texture_path, res.use_normal_alpha_roughness with
  | some np, true => .normalAlpha np
  | _, _ =>
    match res.rough_texture_path, res.use_normal_alpha_roughness with
    | some rp, false => .textureColor rp
    | _, _ => .unconnected

/-- End-to-end: roughness resolution followed by the shader wiring. -/
def roughnessWiring (imageOf : String → Option (List ℚ))
    (file_index : String → Option String)
    (texture_params : List (String × String))
    (rough0 normal0 : Option String) : RoughnessInput :=
  shaderRoughnessInput
    (resolveRoughnessSources imageOf file_index texture_params rough0 normal0)

/-! ## Pattern machinery for `parse_props_file`

The five regular expressions of `parse_props_file` are embedded as
backtracking matchers in continuation-passing style over `List Char`.  Every
repetition in those patterns is over a single-character class, so greedy and
lazy repetition are implemented directly with correct backtracking, matching
CPython `re` semantics on these patterns. -/

def lbrace : Char := Char.ofNat 123
def rbrace : Char := Char.ofNat 125

/-- Python regex class `\s` (the data is ASCII). -/
def pyIsSpace (c : Char) : Bool :=
  c = ' ' || c = '\t' || c = '\n' || c = Char.ofNat 13 || c = Char.ofNat 11 ||
  c = Char.ofNat 12

/-- Python regex class `\w` (ASCII portion). -/
def isWordChar (c : Char) : Bool :=
  c.isAlphanum || c = '_'

/-- Python regex class `[\d.]`. -/
def isDigitDot (c : Char) : Bool :=
  c.isDigit || c = '.'

/-- Python regex class `[-\d.]`. -/
def isNumChar (c : Char) : Bool :=
  c = '-' || c.isDigit || c = '.'

/-- Literal matcher: consume `lit` exactly, then continue. -/
def litM (lit : List Char) (k : List Char → Option α) (s : List Char) :
    Option α :=
  if lit.isPrefixOf s then k (s.drop lit.length) else none

/-- Case-insensitive prefix removal, for the one `re.IGNORECASE` pattern. -/
def dropCIPrefix : List Char → List Char → Option (List Char)
  | [], s => some s
  | _ :: _, [] => none
  | a :: as, b :: bs =>
    if a.toLower = b.toLower then dropCIPrefix as bs else none

/-- Case-insensitive literal matcher. -/
def litCIM (lit : List Char) (k : List Char → Option α) (s : List Char) :
    Option α :=
  match dropCIPrefix lit s with
  | some rem => k rem
  | none => none

/-- Greedy star over a character class, with backtracking. -/
def starCls (p : Char → Bool) (k : List Char → Option α) :
    List Char → Option α
  | [] => k []
  | c :: rest =>
    if p c then
      match starCls p k rest with
      | some r => some r
      | none => k (c :: rest)
    else k (c :: rest)

/-- Greedy plus over a character class. -/
def plusCls (p : Char → Bool) (k : List Char → Option α) :
    List Char → Option α
  | [] => none
  | c :: rest => if p c then starCls p k rest else none

/-- Lazy star over a character class, with backtracking. -/
def lazyStarCls (p : Char → Bool) (k : List Char → Option α) :
    List Char → Option α
  | [] => k []
  | c :: rest =>
    match k (c :: rest) with
    | some r => some r
    | none => if p c then lazyStarCls p k rest else none

/-- Greedy capturing star: the continuation also receives the consumed run. -/
def capStarCls (p : Char → Bool) (k : List Char → List Char → Option α) :
    List Char → Option α
  | [] => k [] []
  | c :: rest =>
    if p c then
      match capStarCls p (fun cap rem => k (c :: cap) rem) rest with
      | some r => some r
      | none => k [] (c :: rest)
    else k [] (c :: rest)

/-- Greedy capturing plus. -/
def capPlusCls (p : Char → Bool) (k : List Char → List Char → Option α) :
    List Char → Option α
  | [] => none
  | c :: rest =>
    if p c then capStarCls p (fun cap rem => k (c :: cap) rem) rest else none

/-- Lazy capturing star. -/
def capLazyStarCls (p : Char → Bool) (k : List Char → List Char → Option α) :
    List Char → Option α
  | [] => k [] []
  | c :: rest =>
    match k [] (c :: rest) with
    | some r => some r
    | none =>
      if p c then capLazyStarCls p (fun cap rem => k (c :: cap) rem) rest
      else none

/-- Lazy capturing plus. -/
def capLazyPlusCls (p : Char → Bool) (k : List Char → List Char → Option α) :
    List Char → Option α
  | [] => none
  | c :: rest =>
    if p c then capLazyStarCls p (fun cap rem => k (c :: cap) rem) rest
    else none

/-- Python `re.search` over an anchored matcher: try every start position,
leftmost success wins. -/
def searchO (m : List Char → Option α) : List Char → Option α
  | [] => m []
  | s@(_ :: t) =>
    match m s with
    | some r => some r
    | none => searchO m t

/-- Python `re.finditer`: non-overlapping leftmost matches, resuming after
each match's end.  Every pattern used here consumes at least one character,
so fuel `|s| + 1` never runs out. -/
def finditAux (m : List Char → Option (β × List Char)) :
    ℕ → List Char → List β
  | 0, _ => []
  | fuel + 1, s =>
    match searchO m s with
    | some (b, rem) => b :: finditAux m fuel rem
    | none => []

def finditer (m : List Char → Option (β × List Char)) (s : List Char) :
    List β :=
  finditAux m (s.length + 1) s

/-- Digit-run to natural number (`int` on a `\d+` capture never fails). -/
def digitsToNat (l : List Char) : ℕ :=
  l.foldl (fun a c => a * 10 + (c.toNat - 48)) 0

/-- Python `float()` restricted to the character set `[-\d.]` that the
capture groups can produce: optional leading minus, at most one dot, at least
one digit, no stray minus. -/
def pyFloatNum? (s : List Char) : Option ℚ :=
  let negBody : Bool × List Char :=
    match s with
    | c :: rest => if c = '-' then (true, rest) else (false, s)
    | [] => (false, [])
  let body := negBody.2
  if body.any (fun c => !(c.isDigit || c = '.')) then none
  else if 1 < (body.filter (· = '.')).length then none
  else if (body.filter Char.isDigit).isEmpty then none
  else
    let intPart := body.takeWhile (· ≠ '.')
    let fracPart := (body.dropWhile (· ≠ '.')).drop 1
    let q : ℚ :=
      (digitsToNat intPart : ℚ) + (digitsToNat fracPart : ℚ) / (10 ^ fracPart.length)
    some (if negBody.1 then -q else q)

/-! ### The five patterns of `parse_props_file` -/

/-- Pattern `BlendMode\s*=\s*BLEND_\w+\s*\((\d+)\)`, returning
`int(group(1))`. -/
def matchBlend : List Char → Option ℕ :=
  litM "BlendMode".data <| starCls pyIsSpace <| litM "=".data <|
  starCls pyIsSpace <| litM "BLEND_".data <| plusCls isWordChar <|
  starCls pyIsSpace <| litM "(".data <|
  capPlusCls Char.isDigit fun cap rem =>
    litM ")".data (fun _ => some (digitsToNat cap)) rem

/-- Pattern `TwoSided\s*=\s*(true|false)` with `re.IGNORECASE`, returning
`group(1).lower() == 'true'`. -/
def matchTwoSided : List Char → Option Bool :=
  litCIM "TwoSided".data <| starCls pyIsSpace <| litM "=".data <|
  starCls pyIsSpace <| fun s =>
    match litCIM "true".data (fun _ => some true) s with
    | some r => some r
    | none => litCIM "false".data (fun _ => some false) s

/-- Pattern `OpacityMaskClipValue\s*=\s*([\d.]+)`, returning the raw capture
(whose `float()` conversion is *not* guarded in the source). -/
def matchOpacity : List Char → Option (List Char) :=
  litM "OpacityMaskClipValue".data <| starCls pyIsSpace <| litM "=".data <|
  starCls pyIsSpace <| capPlusCls isDigitDot fun cap _ => some cap

/-- Scalar-parameter pattern
`ParameterInfo\s*=\s*\{\s*Name\s*=\s*(\w+)\s*\}[^}]*?ParameterValue\s*=\s*([-\d.]+)`,
returning ((name, raw value), rest-of-input). -/
def matchScalar : List Char → Option ((String × List Char) × List Char) :=
  litM "ParameterInfo".data <| starCls pyIsSpace <| litM "=".data <|
  starCls pyIsSpace <| litM [lbrace] <| starCls pyIsSpace <|
  litM "Name".data <| starCls pyIsSpace <| litM "=".data <|
  starCls pyIsSpace <|
  capPlusCls isWordChar fun name rem =>
    (starCls pyIsSpace <| litM [rbrace] <|
     lazyStarCls (fun c => c ≠ rbrace) <|
     litM "ParameterValue".data <| starCls pyIsSpace <| litM "=".data <|
     starCls pyIsSpace <|
     capPlusCls isNumChar fun v rem2 => some ((String.mk name, v), rem2)) rem

/-- Vector-parameter pattern: `Value = { R=.., G=.., B=.., A=.. }` followed
non-greedily by `Name = (\w+)`, returning the four raw component captures,
the name, and the rest-of-input. -/
def matchVector :
    List Char →
    Option ((List Char × List Char × List Char × List Char × String) × List Char) :=
  litM "Value".data <| starCls pyIsSpace <| litM "=".data <|
  starCls pyIsSpace <| litM [lbrace] <| starCls pyIsSpace <|
  litM "R".data <| starCls pyIsSpace <| litM "=".data <| starCls pyIsSpace <|
  capPlusCls isNumChar fun r rem =>
    (starCls pyIsSpace <| litM ",".data <| starCls pyIsSpace <|
     litM "G".data <| starCls pyIsSpace <| litM "=".data <| starCls pyIsSpace <|
     capPlusCls isNumChar fun g rem2 =>
       (starCls pyIsSpace <| litM ",".data <| starCls pyIsSpace <|
        litM "B".data <| starCls pyIsSpace <| litM "=".data <| starCls pyIsSpace <|
        capPlusCls isNumChar fun b rem3 =>
          (starCls pyIsSpace <| litM ",".data <| starCls pyIsSpace <|
           litM "A".data <| starCls pyIsSpace <| litM "=".data <| starCls pyIsSpace <|
           capPlusCls isNumChar fun a rem4 =>
             (starCls pyIsSpace <| litM [rbrace] <|
              lazyStarCls (fun c => c ≠ rbrace) <|
              litM "Name".data <| starCls pyIsSpace <| litM "=".data <|
              starCls pyIsSpace <|
              capPlusCls isWordChar fun nm rem5 =>
                some ((r, g, b, a, String.mk nm), rem5)) rem4) rem3) rem2) rem

/-- Texture-parameter pattern
`ParameterInfo\s*=\s*\{\s*Name\s*=\s*([^\}]+?)\s*\}\s+ParameterValue\s*=\s*Texture2D'[^']*?/([^/']+)\.[^']*'`,
returning ((raw param name, raw texture name), rest-of-input). -/
def matchTexture : List Char → Option ((List Char × List Char) × List Char) :=
  litM "ParameterInfo".data <| starCls pyIsSpace <| litM "=".data <|
  starCls pyIsSpace <| litM [lbrace] <| starCls pyIsSpace <|
  litM "Name".data <| starCls pyIsSpace <| litM "=".data <|
  starCls pyIsSpace <|
  capLazyPlusCls (fun c => c ≠ rbrace) fun pname rem =>
    (starCls pyIsSpace <| litM [rbrace] <| plusCls pyIsSpace <|
     litM "ParameterValue".data <| starCls pyIsSpace <| litM "=".data <|
     starCls pyIsSpace <| litM ("Texture2D".data ++ [apos]) <|
     lazyStarCls (fun c => c ≠ apos) <| litM "/".data <|
     capPlusCls (fun c => c ≠ '/' && c ≠ apos) fun tname rem2 =>
       (litM ".".data <| starCls (fun c => c ≠ apos) <|
        litM [apos] fun rem3 => some ((pname, tname), rem3)) rem2) rem

/-! ### `parse_props_file` itself -/

/-- The result dict of `parse_props_file`.  `texture_params` is an
`Option` because the early-return path hands back the initial dict, which
has no `texture_params` key at all (the key is only added later; the sole
caller reads it via `.get('texture_params', {})`). -/
structure PropsResult where
  blend_mode : ℕ
  two_sided : Bool
  opacity_clip : ℚ
  scalar_params : List (String × ℚ)
  vector_params : List (String × (ℚ × ℚ × ℚ × ℚ))
  texture_params : Option (List (String × String))
deriving Repr, DecidableEq

/-- The initial `result` dict of `parse_props_file`. -/
def defaultPropsResult : PropsResult :=
  { blend_mode := 0, two_sided := false, opacity_clip := 1 / 2,
    scalar_params := [], vector_params := [], texture_params := none }

/-- Python dict assignment `d[k] = v`: overwrite in place or append. -/
def assocUpd (l : List (String × α)) (k : String) (v : α) :
    List (String × α) :=
  if l.any (fun kv => kv.1 = k) then
    l.map (fun kv => if kv.1 = k then (k, v) else kv)
  else l ++ [(k, v)]

/-- The scalar-parameter block: each match's value conversion is wrapped in
`try/except ValueError: pass`. -/
def scalarParamsOf (content : List Char) : List (String × ℚ) :=
  (finditer matchScalar content).foldl
    (fun acc nv =>
      match pyFloatNum? nv.2 with
      | some q => assocUpd acc nv.1 q
      | none => acc)
    []

/-- The vector-parameter block: the four `float()` calls share one
`try/except`; any failure skips the whole entry. -/
def vectorParamsOf (content : List Char) :
    List (String × (ℚ × ℚ × ℚ × ℚ)) :=
  (finditer matchVector content).foldl
    (fun acc t =>
      match pyFloatNum? t.1, pyFloatNum? t.2.1, pyFloatNum? t.2.2.1,
            pyFloatNum? t.2.2.2.1 with
      | some r, some g, some b, some a => assocUpd acc t.2.2.2.2 (r, g, b, a)
      | _, _, _, _ => acc)
    []

/-- The texture-parameter block: both captures are stripped; no numeric
conversion, so no failure path. -/
def textureParamsOf (content : List Char) : List (String × String) :=
  (finditer matchTexture content).foldl
    (fun acc pt => assocUpd acc (String.mk (pyStrip pt.1)) (String.mk (pyStrip pt.2)))
    []

/-- The body of `parse_props_file` after a successful read.  The opacity
field's `float()` is the one unguarded conversion: its failure raises
(`Except.error`), abandoning the whole parse. -/
def parsePropsContent (content : List Char) : Except String PropsResult :=
  let blend_mode : ℕ :=
    match searchO matchBlend content with
    | some n => n
    | none => 0
  let two_sided : Bool :=
    match searchO matchTwoSided content with
    | some b => b
    | none => false
  let opacity? : Except String ℚ :=
    match searchO matchOpacity content with
    | some cap =>
      match pyFloatNum? cap with
      | some q => Except.ok q
      | none => Except.error "ValueError: could not convert string to float"
    | none => Except.ok (1 / 2)
  match opacity? with
  | Except.error e => Except.error e
  | Except.ok opacity_clip =>
    Except.ok
      { blend_mode, two_sided, opacity_clip,
        scalar_params := scalarParamsOf content,
        vector_params := vectorParamsOf content,
        texture_params := some (textureParamsOf content) }

/-- Whole function `parse_props_file(filepath)`: the file read is guarded by
`try/except` returning the initial defaults; nothing after it is guarded
except the per-entry scalar/vector conversions. -/
def parse_props_file (readFile : String → Option (List Char))
    (filepath : String) : Except String PropsResult :=
  match readFile filepath with
  | none => Except.ok defaultPropsResult
  | some content => parsePropsContent content

/-! # Theorems -/

/-! ## Helper lemmas about `pySplitChar` -/

theorem pySplitChar_ne_nil (sep : Char) (l : List Char) :
    pySplitChar sep l ≠ [] := by
  induction l with
  | nil => simp [pySplitChar]
  | cons c t ih =>
    simp only [pySplitChar]
    split
    · simp
    · cases h : pySplitChar sep t with
      | nil => exact absurd h ih
      | cons a b => simp

theorem pySplitChar_not_mem {sep : Char} {l : List Char} (h : sep ∉ l) :
    pySplitChar sep l = [l] := by
  induction l with
  | nil => rfl
  | cons c t ih =>
    have hc : ¬ c = sep := fun hcs => h (by rw [hcs]; exact List.mem_cons_self _ _)
    have ht : sep ∉ t := fun hts => h (List.mem_cons_of_mem c hts)
    simp only [pySplitChar, ih ht]
    rw [if_neg hc]

theorem pySplitChar_mem {sep : Char} {l : List Char} (h : sep ∈ l) :
    ∃ rest, pySplitChar sep l = (l.takeWhile (· ≠ sep)) :: rest ∧ rest ≠ [] := by
  induction l with
  | nil => exact absurd h (List.not_mem_nil sep)
  | cons c t ih =>
    by_cases hc : c = sep
    · refine ⟨pySplitChar sep t, ?_, pySplitChar_ne_nil sep t⟩
      subst hc
      simp [pySplitChar, List.takeWhile]
    · have ht : sep ∈ t := by
        rcases List.mem_cons.mp h with h1 | h2
        · exact absurd h1.symm hc
        · exact h2
      obtain ⟨rest, hr, hne⟩ := ih ht
      refine ⟨rest, ?_, hne⟩
      have htw : (c :: t).takeWhile (· ≠ sep) = c :: t.takeWhile (· ≠ sep) := by
        simp [List.takeWhile, hc]
      rw [htw]
      simp only [pySplitChar, hr]
      rw [if_neg hc]

/-- C9: `split_object_path` truncates at the *first* period: for a string
containing a period it returns the prefix before the first one, and a string
with no period is returned unchanged. -/
theorem c9_split_object_path_first_period (s : String) :
    ('.' ∈ s.data → split_object_path s = String.mk (s.data.takeWhile (· ≠ '.'))) ∧
    ('.' ∉ s.data → split_object_path s = s) := by
  constructor
  · intro h
    obtain ⟨rest, hr, hne⟩ := pySplitChar_mem h
    unfold split_object_path
    rw [hr]
    cases rest with
    | nil => exact absurd rfl hne
    | cons a b => rfl
  · intro h
    unfold split_object_path
    rw [pySplitChar_not_mem h]

/-- Witness for C9: on `"A.B.0"` the result is `"A"` (not `"A.B"`), and a
period-free string comes back unchanged. -/
theorem c9_witness :
    split_object_path "A.B.0" = "A" ∧ split_object_path "ABC" = "ABC" := by
  constructor
  · have h := (c9_split_object_path_first_period "A.B.0").1 (by decide)
    simpa using h
  · exact (c9_split_object_path_first_period "ABC").2 (by decide)

/-- C10: a valid light record whose entity `Type` is neither
`SpotLightComponent` nor `PointLightComponent` is still placed, as a `POINT`
light — an unrecognized type is never an error and never skipped; and such
entities (e.g. `AnimatedLightComponent`) are classified as lights at all. -/
theorem c10_unknown_light_type_point (l : GameLightRec)
    (hv : l.invalid = false)
    (hs : l.type ≠ "SpotLightComponent")
    (hp : l.type ≠ "PointLightComponent") :
    importLight l = some { name := l.entity_name, light_type := "POINT",
                           pos := l.pos, rot := l.rot, scale := l.scale } ∧
    "AnimatedLightComponent" ∈ light_types := by
  refine ⟨?_, by simp [light_types]⟩
  unfold importLight
  rw [hv]
  simp [if_neg hs, if_neg hp]

/-- Witness for C10: a concrete `AnimatedLightComponent` record, as built by
`mkGameLight`, is placed as a `POINT` light. -/
theorem c10_witness :
    mkGameLight (JValue.obj
      [("Type", JValue.str "AnimatedLightComponent"),
       ("Outer", JValue.str "L1"),
       ("Properties", JValue.obj [("bVisible", JValue.bool true)])]) =
      some { entity_name := "L1", type := "AnimatedLightComponent",
             pos := ⟨0, 0, 0⟩, rot := ⟨0, 0, 0⟩, scale := ⟨1, 1, 1⟩,
             invalid := false } ∧
    importLight { entity_name := "L1", type := "AnimatedLightComponent",
                  pos := ⟨0, 0, 0⟩, rot := ⟨0, 0, 0⟩, scale := ⟨1, 1, 1⟩,
                  invalid := false } =
      some { name := "L1", light_type := "POINT", pos := ⟨0, 0, 0⟩,
             rot := ⟨0, 0, 0⟩, scale := ⟨1, 1, 1⟩ } := by
  refine ⟨by decide, ?_⟩
  exact (c10_unknown_light_type_point _ rfl (by decide) (by decide)).1

/-! ## C2: entities with absent/empty Properties -/

theorem oget_nil (k : String) : oget [] k = none := rfl

theorem obind_some (a : α) (f : α → Option β) :
    (some a : Option α) >>= f = f a := rfl

/-- C2 counterexample: a sound entity with no `Properties` key still yields a
record with `invalid = False`, and `_import_sound_entity` still places a
speaker for it — contradicting the claim that every builder marks such
entities invalid and that no placement occurs. -/
theorem c2_counterexample :
    mkGameSound (fun _ => none) 1
      (JValue.obj [("Name", JValue.str "SD3DSound_7"),
                   ("Type", JValue.str "SD3DSound")]) =
      some { entity_name := "SD3DSound_7", pos := ⟨0, 0, 0⟩, rot := ⟨0, 0, 0⟩,
             audio_id := "", ak_event_path := "", inner_radius := 200,
             outer_radius := 1000, invalid := false } ∧
    importSoundEntity (fun _ => none) 1
      (JValue.obj [("Name", JValue.str "SD3DSound_7"),
                   ("Type", JValue.str "SD3DSound")]) =
      some { name := "SD3DSound_7", pos := ⟨0, 0, 0⟩ } := by
  constructor <;> rfl

set_option maxHeartbeats 2000000 in
/-- C2 (amended): for an entity whose `Properties` key is absent or empty,
the StaticMesh and SkeletalMesh builders mark the record `invalid = True`
with the non-empty reason `"no properties"` and the mesh handlers place
nothing; the GameLight builder marks `invalid = True` (it has no reason
attribute at all) and `import_light` places nothing; the GameSound builder
leaves `invalid = False` and a speaker *is* placed. -/
theorem c2_missing_properties (fe : String → Bool) (bd asd : String) (sf : ℚ)
    (cl : String → Option JValue) (ent : List (String × JValue))
    (nm ty snm : String)
    (hprops : oget ent "Properties" = none ∨
              oget ent "Properties" = some (JValue.obj []))
    (houter : oget ent "Outer" = some (JValue.str nm))
    (htype : oget ent "Type" = some (JValue.str ty))
    (hname : oget ent "Name" = some (JValue.str snm))
    (hcl : cl snm = none) :
    mkStaticMesh fe bd asd sf (JValue.obj ent) =
      some { entity_name := nm, import_path := "", pos := ⟨0, 0, 0⟩,
             rot := ⟨0, 0, 0⟩, scale := ⟨1, 1, 1⟩, invalid := true,
             skip_reason := "no properties" } ∧
    importMeshEntity fe bd sf (JValue.obj ent) = none ∧
    mkSkeletalMesh fe bd asd sf (JValue.obj ent) =
      some { entity_name := nm, import_path := "", pos := ⟨0, 0, 0⟩,
             rot := ⟨0, 0, 0⟩, scale := ⟨1, 1, 1⟩, invalid := true,
             skip_reason := "no properties", anim_sequences := [] } ∧
    importSkeletalEntity fe bd sf (JValue.obj ent) = none ∧
    mkGameLight (JValue.obj ent) =
      some { entity_name := nm, type := ty, pos := ⟨0, 0, 0⟩,
             rot := ⟨0, 0, 0⟩, scale := ⟨1, 1, 1⟩, invalid := true } ∧
    importLight { entity_name := nm, type := ty, pos := ⟨0, 0, 0⟩,
                  rot := ⟨0, 0, 0⟩, scale := ⟨1, 1, 1⟩, invalid := true } =
      none ∧
    mkGameSound cl sf (JValue.obj ent) =
      some { entity_name := snm, pos := ⟨0, 0, 0⟩, rot := ⟨0, 0, 0⟩,
             audio_id := "", ak_event_path := "", inner_radius := 200,
             outer_radius := 1000, invalid := false } ∧
    importSoundEntity cl sf (JValue.obj ent) =
      some { name := snm, pos := ⟨0, 0, 0⟩ } := by
  have hnameD : getStrD ent "Name" "Error" = some snm := by
    simp [getStrD, hname]
  have houterD : getStrD ent "Outer" "Error" = some nm := by
    simp [getStrD, houter]
  have htypeD : getStrD ent "Type" "SpotLightComponent" = some ty := by
    simp [getStrD, htype]
  have hpropsD : getObjD ent "Properties" = JValue.obj [] := by
    rcases hprops with h | h <;> simp [getObjD, h]
  have e3 : getStrD ([] : List (String × JValue)) "Audio_ID" "" = some "" := rfl
  have e4 : getNumD ([] : List (String × JValue)) "InnerRadius" 200 = some 200 := rfl
  have e5 : getNumD ([] : List (String × JValue)) "OuterRadius" 1000 = some 1000 := rfl
  have e6 : getObjD ([] : List (String × JValue)) "AkEvent" = JValue.obj [] := rfl
  have e7 : getStrD ([] : List (String × JValue)) "ObjectPath" "" = some "" := rfl
  have hsound : mkGameSound cl sf (JValue.obj ent) =
      some { entity_name := snm, pos := ⟨0, 0, 0⟩, rot := ⟨0, 0, 0⟩,
             audio_id := "", ak_event_path := "", inner_radius := 200,
             outer_radius := 1000, invalid := false } := by
    unfold mkGameSound
    simp only [asObj, obind_some, hnameD, hpropsD, e3, e4, e5, e6, e7, hcl]
    rfl
  have hstatic : ∀ asd', mkStaticMesh fe bd asd' sf (JValue.obj ent) =
      some { entity_name := nm, import_path := "", pos := ⟨0, 0, 0⟩,
             rot := ⟨0, 0, 0⟩, scale := ⟨1, 1, 1⟩, invalid := true,
             skip_reason := "no properties" } := by
    intro asd'
    unfold mkStaticMesh
    rcases hprops with h | h <;>
      simp only [asObj, obind_some, houterD, h] <;> rfl
  have hskel : ∀ asd', mkSkeletalMesh fe bd asd' sf (JValue.obj ent) =
      some { entity_name := nm, import_path := "", pos := ⟨0, 0, 0⟩,
             rot := ⟨0, 0, 0⟩, scale := ⟨1, 1, 1⟩, invalid := true,
             skip_reason := "no properties", anim_sequences := [] } := by
    intro asd'
    unfold mkSkeletalMesh
    rcases hprops with h | h <;>
      simp only [asObj, obind_some, houterD, h] <;> rfl
  have hlight : mkGameLight (JValue.obj ent) =
      some { entity_name := nm, type := ty, pos := ⟨0, 0, 0⟩,
             rot := ⟨0, 0, 0⟩, scale := ⟨1, 1, 1⟩, invalid := true } := by
    unfold mkGameLight
    rcases hprops with h | h <;>
      simp only [asObj, obind_some, houterD, htypeD, h] <;> rfl
  refine ⟨hstatic asd, ?_, hskel asd, ?_, hlight, rfl, hsound, ?_⟩
  · simp [importMeshEntity, hstatic ""]
  · simp [importSkeletalEntity, hskel ""]
  · simp [importSoundEntity, hsound]

/-- Witness for C2: the amended statement at a concrete entity with no
`Properties` key. -/
theorem c2_witness :
    mkStaticMesh (fun _ => true) "/b/" "" 1
      (JValue.obj [("Outer", JValue.str "SM_0"), ("Name", JValue.str "S_0"),
                   ("Type", JValue.str "SpotLightComponent")]) =
      some { entity_name := "SM_0", import_path := "", pos := ⟨0, 0, 0⟩,
             rot := ⟨0, 0, 0⟩, scale := ⟨1, 1, 1⟩, invalid := true,
             skip_reason := "no properties" } ∧
    importSoundEntity (fun _ => none) 1
      (JValue.obj [("Outer", JValue.str "SM_0"), ("Name", JValue.str "S_0"),
                   ("Type", JValue.str "SpotLightComponent")]) =
      some { name := "S_0", pos := ⟨0, 0, 0⟩ } := by
  have h := c2_missing_properties (fun _ => true) "/b/" "" 1 (fun _ => none)
    [("Outer", JValue.str "SM_0"), ("Name", JValue.str "S_0"),
     ("Type", JValue.str "SpotLightComponent")]
    "SM_0" "SpotLightComponent" "S_0" (Or.inl rfl) rfl rfl rfl rfl
  exact ⟨h.1, h.2.2.2.2.2.2.2⟩

/-! ## C1: coordinate conversion per builder -/

/-- C1 counterexample: a sound entity whose companion scene component carries
`RelativeRotation {Roll:10, Pitch:20, Yaw:30}` still gets rotation
`(0, 0, 0)` — `GameSound.__init__` never reads rotation at all, so the
claimed uniform rule (which would give `(10, -20, -30)`) fails for the
GameSound builder. -/
theorem c1_counterexample :
    (mkGameSound
      (fun n => if n = "SD3DSound_0" then
        some (JValue.obj [("Properties", JValue.obj
          [("RelativeLocation", JValue.obj
            [("X", JValue.num 100), ("Y", JValue.num 100),
             ("Z", JValue.num 100)]),
           ("RelativeRotation", JValue.obj
            [("Roll", JValue.num 10), ("Pitch", JValue.num 20),
             ("Yaw", JValue.num 30)])])])
       else none) 1
      (JValue.obj [("Name", JValue.str "SD3DSound_0"),
                   ("Properties", JValue.obj [])])).map GameSoundRec.rot =
      some ⟨0, 0, 0⟩ ∧
    (⟨0, 0, 0⟩ : Vec3) ≠ ⟨10, -20, -30⟩ := by
  refine ⟨rfl, ?_⟩
  intro h
  have := congrArg Vec3.x h
  norm_num at this

set_option maxHeartbeats 2000000 in
/-- C1 (amended): the claimed conversion — position `coord/100`, Y negated,
times the scale factor; rotation `(Roll, -Pitch, -Yaw)`; scale per axis times
the scale factor, defaulting to scale-factor-uniform — holds exactly for the
StaticMesh and SkeletalMesh builders.  The GameLight builder is constructed
without any scale factor: its position is `coord/100` with Y negated and its
scale defaults to `(1, 1, 1)`, unscaled.  The GameSound builder converts only
position (from its companion scene component, with the scale factor); its
rotation is always `(0, 0, 0)` and it has no scale. -/
theorem c1_coordinate_conversion
    (fe : String → Bool) (bd asd : String) (sf : ℚ)
    (props loc rotf sc : List (String × JValue))
    (x y z roll pitch yaw sx sy sz : ℚ)
    (hL : oget props "RelativeLocation" = some (JValue.obj loc))
    (hLne : loc ≠ [])
    (hx : getNum loc "X" = some x) (hy : getNum loc "Y" = some y)
    (hz : getNum loc "Z" = some z)
    (hR : oget props "RelativeRotation" = some (JValue.obj rotf))
    (hRne : rotf ≠ [])
    (hroll : getNum rotf "Roll" = some roll)
    (hpitch : getNum rotf "Pitch" = some pitch)
    (hyaw : getNum rotf "Yaw" = some yaw) :
    -- (A) with RelativeScale3D present, the converted transform
    (oget props "RelativeScale3D" = some (JValue.obj sc) → sc ≠ [] →
      getNumD sc "X" 1 = some sx → getNumD sc "Y" 1 = some sy →
      getNumD sc "Z" 1 = some sz →
      convertTransform props sf =
        some (⟨x / 100 * sf, -(y / 100) * sf, z / 100 * sf⟩,
              ⟨roll, -pitch, -yaw⟩,
              ⟨sx * sf, sy * sf, sz * sf⟩)) ∧
    -- (B) with RelativeScale3D absent, scale defaults to the scale factor
    (oget props "RelativeScale3D" = none →
      convertTransform props sf =
        some (⟨x / 100 * sf, -(y / 100) * sf, z / 100 * sf⟩,
              ⟨roll, -pitch, -yaw⟩,
              ⟨sf, sf, sf⟩)) ∧
    -- (C) the StaticMesh builder's valid path applies exactly this transform
    (∀ (ent sm : List (String × JValue)) (nm op : String),
      oget ent "Outer" = some (JValue.str nm) →
      oget ent "Properties" = some (JValue.obj props) → props ≠ [] →
      oget props "StaticMesh" = some (JValue.obj sm) → sm ≠ [] →
      oget sm "ObjectPath" = some (JValue.str op) → op ≠ "" →
      listContainsSub "BasicShapes".data op.data = false →
      fe (bd ++ asd ++ split_object_path op ++ ".gltf") = true →
      mkStaticMesh fe bd asd sf (JValue.obj ent) =
        (convertTransform props sf).map (fun t =>
          { entity_name := nm,
            import_path := bd ++ asd ++ split_object_path op ++ ".gltf",
            pos := t.1, rot := t.2.1, scale := t.2.2,
            invalid := false, skip_reason := "" })) ∧
    -- (D) the SkeletalMesh builder's valid path applies exactly this transform
    (∀ (ent sm : List (String × JValue)) (nm op : String),
      oget ent "Outer" = some (JValue.str nm) →
      oget ent "Properties" = some (JValue.obj props) → props ≠ [] →
      oget props "SkeletalMesh" = some (JValue.obj sm) → sm ≠ [] →
      oget sm "ObjectPath" = some (JValue.str op) → op ≠ "" →
      fe (bd ++ asd ++ split_object_path op ++ ".gltf") = true →
      mkSkeletalMesh fe bd asd sf (JValue.obj ent) =
        (convertTransform props sf).map (fun t =>
          { entity_name := nm,
            import_path := bd ++ asd ++ split_object_path op ++ ".gltf",
            pos := t.1, rot := t.2.1, scale := t.2.2,
            invalid := false, skip_reason := "",
            anim_sequences := extractAnimNames (JValue.obj props) })) ∧
    -- (E) GameLight: no scale factor on position, scale defaults to (1,1,1)
    (∀ (ent : List (String × JValue)) (nm ty : String),
      oget ent "Outer" = some (JValue.str nm) →
      oget ent "Type" = some (JValue.str ty) →
      oget ent "Properties" = some (JValue.obj props) → props ≠ [] →
      oget props "RelativeScale3D" = none →
      mkGameLight (JValue.obj ent) =
        some { entity_name := nm, type := ty,
               pos := ⟨x / 100, -(y / 100), z / 100⟩,
               rot := ⟨roll, -pitch, -yaw⟩,
               scale := ⟨1, 1, 1⟩, invalid := false }) ∧
    -- (F) GameSound: position only (scaled); rotation always (0,0,0)
    (∀ (cl : String → Option JValue) (ent comp cprops : List (String × JValue))
       (snm : String),
      oget ent "Name" = some (JValue.str snm) →
      oget ent "Properties" = some (JValue.obj []) →
      cl snm = some (JValue.obj comp) →
      getObjD comp "Properties" = JValue.obj cprops →
      getObjD cprops "RelativeLocation" = JValue.obj loc →
      mkGameSound cl sf (JValue.obj ent) =
        some { entity_name := snm,
               pos := ⟨x / 100 * sf, -(y / 100) * sf, z / 100 * sf⟩,
               rot := ⟨0, 0, 0⟩, audio_id := "", ak_event_path := "",
               inner_radius := 200, outer_radius := 1000,
               invalid := false }) := by
  have htL : truthy (JValue.obj loc) = true := by
    cases loc with
    | nil => exact absurd rfl hLne
    | cons a l => rfl
  have htR : truthy (JValue.obj rotf) = true := by
    cases rotf with
    | nil => exact absurd rfl hRne
    | cons a l => rfl
  have hvec : (⟨x / 100 * sf, y / (-100) * sf, z / 100 * sf⟩ : Vec3) =
      ⟨x / 100 * sf, -(y / 100) * sf, z / 100 * sf⟩ := by
    have : y / (-100 : ℚ) = -(y / 100) := by
      rw [div_neg]
    rw [this]
  have hrotv : (⟨roll, pitch * (-1), yaw * (-1)⟩ : Vec3) =
      ⟨roll, -pitch, -yaw⟩ := by
    rw [mul_neg_one, mul_neg_one]
  refine ⟨?_, ?_, ?_, ?_, ?_, ?_⟩
  · intro hS hSne hsx hsy hsz
    have htS : truthy (JValue.obj sc) = true := by
      cases sc with
      | nil => exact absurd rfl hSne
      | cons a l => rfl
    unfold convertTransform
    simp only [hL, htL, asObj, obind_some, hx, hy, hz, hR, htR, hroll, hpitch,
      hyaw, hS, htS, hsx, hsy, hsz, if_true]
    rw [hvec, hrotv]
    rfl
  · intro hS
    unfold convertTransform
    simp only [hL, htL, asObj, obind_some, hx, hy, hz, hR, htR, hroll, hpitch,
      hyaw, hS, if_true]
    rw [hvec, hrotv]
    rfl
  · intro ent sm nm op houter hpv hpne hsm hsmne hop hopne hbs hfe
    have houterD : getStrD ent "Outer" "Error" = some nm := by
      simp [getStrD, houter]
    have htP : truthy (JValue.obj props) = true := by
      cases props with
      | nil => exact absurd rfl hpne
      | cons a l => rfl
    have htS : truthy (JValue.obj sm) = true := by
      cases sm with
      | nil => exact absurd rfl hsmne
      | cons a l => rfl
    unfold mkStaticMesh
    simp only [asObj, obind_some, houterD, hpv, htP, hsm, htS, hop, hopne,
      hbs, hfe, Bool.not_true, Bool.not_false, if_true, if_false,
      Bool.false_eq_true, ite_false, ite_true]
    cases hct : convertTransform props sf with
    | none => rfl
    | some t => rfl
  · intro ent sm nm op houter hpv hpne hsm hsmne hop hopne hfe
    have houterD : getStrD ent "Outer" "Error" = some nm := by
      simp [getStrD, houter]
    have htP : truthy (JValue.obj props) = true := by
      cases props with
      | nil => exact absurd rfl hpne
      | cons a l => rfl
    have htS : truthy (JValue.obj sm) = true := by
      cases sm with
      | nil => exact absurd rfl hsmne
      | cons a l => rfl
    unfold mkSkeletalMesh
    simp only [asObj, obind_some, houterD, hpv, htP, hsm, htS, hop, hopne,
      hfe, Bool.not_true, Bool.not_false, if_true, if_false,
      Bool.false_eq_true, ite_false, ite_true]
    cases hct : convertTransform props sf with
    | none => rfl
    | some t => rfl
  · intro ent nm ty houter htype hpv hpne hSA
    have houterD : getStrD ent "Outer" "Error" = some nm := by
      simp [getStrD, houter]
    have htypeD : getStrD ent "Type" "SpotLightComponent" = some ty := by
      simp [getStrD, htype]
    have htP : truthy (JValue.obj props) = true := by
      cases props with
      | nil => exact absurd rfl hpne
      | cons a l => rfl
    unfold mkGameLight
    simp only [asObj, obind_some, houterD, htypeD, hpv, htP, hL, htL, hx, hy,
      hz, hR, htR, hroll, hpitch, hyaw, hSA, if_true, Bool.not_true,
      Bool.false_eq_true, ite_false, ite_true]
    have hvecL : (⟨x / 100, y / (-100), z / 100⟩ : Vec3) =
        ⟨x / 100, -(y / 100), z / 100⟩ := by
      have : y / (-100 : ℚ) = -(y / 100) := by rw [div_neg]
      rw [this]
    rw [hvecL, hrotv]
    rfl
  · intro cl ent comp cprops snm hname hpv hcl hcp hcl2
    have hnameD : getStrD ent "Name" "Error" = some snm := by
      simp [getStrD, hname]
    have hpd : getObjD ent "Properties" = JValue.obj [] := by
      simp [getObjD, hpv]
    have e3 : getStrD ([] : List (String × JValue)) "Audio_ID" "" = some "" := rfl
    have e4 : getNumD ([] : List (String × JValue)) "InnerRadius" 200 = some 200 := rfl
    have e5 : getNumD ([] : List (String × JValue)) "OuterRadius" 1000 = some 1000 := rfl
    have e6 : getObjD ([] : List (String × JValue)) "AkEvent" = JValue.obj [] := rfl
    have e7 : getStrD ([] : List (String × JValue)) "ObjectPath" "" = some "" := rfl
    have hgx : getNumD loc "X" 0 = some x := by
      have := hx
      unfold getNum at this
      unfold getNumD
      cases hvx : oget loc "X" with
      | none => rw [hvx] at this; exact absurd this (by simp)
      | some v =>
        rw [hvx] at this
        cases v <;> simp_all
    have hgy : getNumD loc "Y" 0 = some y := by
      have := hy
      unfold getNum at this
      unfold getNumD
      cases hvy : oget loc "Y" with
      | none => rw [hvy] at this; exact absurd this (by simp)
      | some v =>
        rw [hvy] at this
        cases v <;> simp_all
    have hgz : getNumD loc "Z" 0 = some z := by
      have := hz
      unfold getNum at this
      unfold getNumD
      cases hvz : oget loc "Z" with
      | none => rw [hvz] at this; exact absurd this (by simp)
      | some v =>
        rw [hvz] at this
        cases v <;> simp_all
    unfold mkGameSound
    simp only [asObj, obind_some, hnameD, hpd, e3, e4, e5, e6, e7, hcl, hcp,
      hcl2, hgx, hgy, hgz]
    rw [hvec]
    rfl

/-- Witness for C1: the spec's own example — location `{X:100,Y:100,Z:100}`
at scale factor 1 gives `(1.0, -1.0, 1.0)` and rotation
`{Roll:10,Pitch:20,Yaw:30}` gives `(10.0, -20.0, -30.0)` — evaluated through
`convertTransform` (the shared tail of the StaticMesh/SkeletalMesh builders),
together with the numeric identities connecting the converted values to the
spec's numbers. -/
theorem c1_witness :
    convertTransform
      [("RelativeLocation", JValue.obj
          [("X", JValue.num 100), ("Y", JValue.num 100), ("Z", JValue.num 100)]),
       ("RelativeRotation", JValue.obj
          [("Roll", JValue.num 10), ("Pitch", JValue.num 20),
           ("Yaw", JValue.num 30)])] 1 =
      some (⟨100 / 100 * 1, -((100 : ℚ) / 100) * 1, 100 / 100 * 1⟩,
            ⟨10, -20, -30⟩, ⟨1, 1, 1⟩) ∧
    (⟨100 / 100 * 1, -((100 : ℚ) / 100) * 1, 100 / 100 * 1⟩ : Vec3) =
      ⟨1, -1, 1⟩ := by
  constructor
  · have h := c1_coordinate_conversion (fun _ => true) "" "" 1
      [("RelativeLocation", JValue.obj
          [("X", JValue.num 100), ("Y", JValue.num 100), ("Z", JValue.num 100)]),
       ("RelativeRotation", JValue.obj
          [("Roll", JValue.num 10), ("Pitch", JValue.num 20),
           ("Yaw", JValue.num 30)])]
      [("X", JValue.num 100), ("Y", JValue.num 100), ("Z", JValue.num 100)]
      [("Roll", JValue.num 10), ("Pitch", JValue.num 20), ("Yaw", JValue.num 30)]
      [] 100 100 100 10 20 30 1 1 1 rfl (by simp) rfl rfl rfl rfl (by simp)
      rfl rfl rfl
    exact h.2.1 rfl
  · have h1 : ((100 : ℚ) / 100 * 1) = 1 := by norm_num
    have h2 : (-((100 : ℚ) / 100) * 1) = -1 := by norm_num
    rw [h1, h2]

/-! ## C3: normal-alpha roughness gating and the legacy fallback -/

/-- Concrete failing input for C3: the normal image's alpha channel is
constant (all 1), so its sampled range is 0 ≤ 0.1. -/
def c3imageOf : String → Option (List ℚ) :=
  fun p => if p = "/a/T_N.tga" then some [1, 1, 1, 1, 1, 1, 1, 1] else none

/-- Concrete file index for C3: both the normal texture and the `.mat`-derived
roughness texture exist on disk. -/
def c3fileIndex : String → Option String :=
  fun f =>
    if f = "T_N.tga" then some "/a/T_N.tga"
    else if f = "Foo_R.tga" then some "/a/Foo_R.tga"
    else none

/-- Concrete parsed texture params for C3: a combined normal+roughness
texture is declared. -/
def c3params : List (String × String) := [("NormalMap+Roughness", "T_N")]

theorem shaderRoughnessInput_no_texture (res : RoughResolution)
    (h : res.rough_texture_path = none) (p : String) :
    shaderRoughnessInput res ≠ RoughnessInput.textureColor p := by
  obtain ⟨rt, nt, ub⟩ := res
  simp only at h
  subst h
  cases nt <;> cases ub <;> simp [shaderRoughnessInput]

/-- C3 (code bug): the roughness-source fall-through never reaches the legacy
`.mat` texture.  (i) In *every* material evaluation the value handed to the
node builder as the roughness texture path is `None` — line 1768
(`rough_texture_path = None`) contradicts the comment directly above it
("Priority 3: .mat file fallback is already set above"), so the `.mat`
roughness texture can never be wired.  (ii) At the concrete failing input —
combined normal+roughness declared, alpha range 0 (≤ 0.1), `.mat` roughness
resolved to an existing file — the gating does fall through, yet the shader's
roughness input ends up unconnected instead of wired to the `.mat` texture. -/
theorem c3_mat_roughness_never_wired :
    (∀ (imageOf : String → Option (List ℚ)) (fi : String → Option String)
       (tp : List (String × String)) (r0 n0 : Option String) (p : String),
       roughnessWiring imageOf fi tp r0 n0 ≠ RoughnessInput.textureColor p) ∧
    hasAlphaVariation c3imageOf "/a/T_N.tga" = false ∧
    resolveRoughnessSources c3imageOf c3fileIndex c3params
        (some "/a/Foo_R.tga") (some "/a/T_N.tga") =
      { rough_texture_path := none, normal_texture_path := some "/a/T_N.tga",
        use_normal_alpha_roughness := false } ∧
    roughnessWiring c3imageOf c3fileIndex c3params
        (some "/a/Foo_R.tga") (some "/a/T_N.tga") =
      RoughnessInput.unconnected := by
  have halpha : hasAlphaVariation c3imageOf "/a/T_N.tga" = false := by
    show decide ((1 : ℚ) / 10 < qListMax [1, 1] - qListMin [1, 1]) = false
    rw [decide_eq_false_iff_not]
    simp only [qListMax, qListMin, List.foldl, max_self, min_self]
    norm_num
  have hres : resolveRoughnessSources c3imageOf c3fileIndex c3params
      (some "/a/Foo_R.tga") (some "/a/T_N.tga") =
      { rough_texture_path := none, normal_texture_path := some "/a/T_N.tga",
        use_normal_alpha_roughness := false } := by
    show ({ rough_texture_path := none,
            normal_texture_path :=
              (if hasAlphaVariation c3imageOf "/a/T_N.tga" then
                 ((none : Option String), (some "/a/T_N.tga" : Option String), true)
               else (some "/a/Foo_R.tga", some "/a/T_N.tga", false)).2.1,
            use_normal_alpha_roughness :=
              (if hasAlphaVariation c3imageOf "/a/T_N.tga" then
                 ((none : Option String), (some "/a/T_N.tga" : Option String), true)
               else (some "/a/Foo_R.tga", some "/a/T_N.tga", false)).2.2 } :
        RoughResolution) = _
    rw [halpha]
    rfl
  refine ⟨?_, halpha, hres, ?_⟩
  · intro imageOf fi tp r0 n0 p
    exact shaderRoughnessInput_no_texture _ rfl p
  · unfold roughnessWiring
    rw [hres]
    rfl

/-! ## C4: the `.mat` roughness-name fallback -/

/-- The exact condition under which a line assigns the roughness name in the
`LiSR_mapimporter.py` loop: prefix filter, a `=` present, key starting with
`Other[`, stripped value ending in `R`. -/
def otherRoughTrigger (line : String) : Bool :=
  startsWithAny line ["Diffuse", "Normal", "SpecPower", "Other["] &&
  match pySplitChar '=' line.data with
  | key :: v :: _ => "Other[".data.isPrefixOf key && pyEndsWithR (pyStrip v)
  | _ => false

/-- Same for the `main.py` loop (filter uses `Other[0]`; the condition is
stated on the *stripped* value, as the claim words it — the code tests the
raw value, and a raw value ending in `R` also ends in `R` once stripped). -/
def otherRoughTriggerLegacy (line : String) : Bool :=
  startsWithAny line ["Diffuse", "Normal", "SpecPower", "Other[0]"] &&
  match pySplitChar '=' line.data with
  | key :: v :: _ => "Other[".data.isPrefixOf key && pyEndsWithR (pyStrip v)
  | _ => false

/-- A line that matches the prefix filter and contains a `=` (the only lines
that change any state in the `main.py` loop). -/
def legacyEffective (line : String) : Bool :=
  startsWithAny line ["Diffuse", "Normal", "SpecPower", "Other[0]"] &&
  match pySplitChar '=' line.data with
  | _ :: _ :: _ => true
  | _ => false

theorem pyEndsWithR_strip (v : List Char) (h : pyEndsWithR v = true) :
    pyEndsWithR (pyStrip v) = true := by
  unfold pyEndsWithR at h ⊢
  rw [decide_eq_true_eq] at h ⊢
  have hws : Char.isWhitespace 'R' = false := by decide
  have step1 : ∀ u : List Char, u.getLast? = some 'R' →
      (u.dropWhile Char.isWhitespace).getLast? = some 'R' := by
    intro u
    induction u with
    | nil => intro hu; exact absurd hu (by simp)
    | cons c t ih =>
      intro hu
      by_cases hc : Char.isWhitespace c
      · rw [List.dropWhile_cons_of_pos hc]
        cases t with
        | nil =>
          have : c = 'R' := by simpa using hu
          rw [this] at hc
          rw [hws] at hc
          exact absurd hc (by simp)
        | cons b t2 =>
          rw [List.getLast?_cons_cons] at hu
          exact ih hu
      · rw [List.dropWhile_cons_of_neg hc]
        exact hu
  have h1 := step1 v h
  have h2 : (v.dropWhile Char.isWhitespace).reverse.head? = some 'R' := by
    rw [List.head?_reverse]; exact h1
  unfold pyStrip
  rw [List.getLast?_reverse]
  cases hw : (v.dropWhile Char.isWhitespace).reverse with
  | nil => rw [hw] at h2; exact absurd h2 (by simp)
  | cons c w' =>
    rw [hw] at h2
    have hc : c = 'R' := by simpa using h2
    subst hc
    rw [List.dropWhile_cons_of_neg (by rw [hws]; simp)]
    rfl

theorem matLineStep_rough (st : MatNames) (line : String)
    (h : otherRoughTrigger line = false) :
    (matLineStep st line).rough = st.rough := by
  unfold otherRoughTrigger at h
  unfold matLineStep
  by_cases hs : startsWithAny line ["Diffuse", "Normal", "SpecPower", "Other["]
  · rw [hs, Bool.true_and] at h
    rw [if_pos hs]
    cases hsplit : pySplitChar '=' line.data with
    | nil => rfl
    | cons key rest =>
      cases rest with
      | nil => rfl
      | cons v rest2 =>
        simp only [hsplit] at h ⊢
        split_ifs with h1 h2 h3 h4
        · rfl
        · rfl
        · rfl
        · rw [h4] at h; exact absurd h (by simp)
        · rfl
  · rw [if_neg hs]

theorem fold_mat_rough (lines : List String) :
    ∀ st : MatNames, (∀ l ∈ lines, otherRoughTrigger l = false) →
    (lines.foldl matLineStep st).rough = st.rough := by
  induction lines with
  | nil => intro st _; rfl
  | cons l rest ih =>
    intro st h
    rw [List.foldl_cons,
        ih _ (fun x hx => h x (List.mem_cons_of_mem l hx)),
        matLineStep_rough st l (h l (List.mem_cons_self l rest))]

theorem matLineStepLegacy_noop (st : MatNames) (line : String)
    (h : legacyEffective line = false) :
    matLineStepLegacy st line = st := by
  unfold legacyEffective at h
  unfold matLineStepLegacy
  by_cases hs : startsWithAny line ["Diffuse", "Normal", "SpecPower", "Other[0]"]
  · rw [hs, Bool.true_and] at h
    rw [if_pos hs]
    cases hsplit : pySplitChar '=' line.data with
    | nil => rfl
    | cons key rest =>
      cases rest with
      | nil => rfl
      | cons v rest2 =>
        simp only [hsplit] at h
        exact absurd h (by simp)
  · rw [if_neg hs]

theorem matLineStepLegacy_derives (st : MatNames) (line : String)
    (htrig : otherRoughTriggerLegacy line = false)
    (heff : legacyEffective line = true) :
    (matLineStepLegacy st line).rough =
      (matLineStepLegacy st line).diffuse.dropRight 1 ++ "R" := by
  unfold otherRoughTriggerLegacy at htrig
  unfold legacyEffective at heff
  unfold matLineStepLegacy
  by_cases hs : startsWithAny line ["Diffuse", "Normal", "SpecPower", "Other[0]"]
  · rw [hs, Bool.true_and] at htrig
    rw [if_pos hs]
    cases hsplit : pySplitChar '=' line.data with
    | nil => rw [hs, Bool.true_and, hsplit] at heff; exact absurd heff (by simp)
    | cons key rest =>
      cases rest with
      | nil => rw [hs, Bool.true_and, hsplit] at heff; exact absurd heff (by simp)
      | cons v rest2 =>
        simp only [hsplit] at htrig ⊢
        have hraw : ¬ ("Other[".data.isPrefixOf key && pyEndsWithR v) = true := by
          intro hcon
          rw [Bool.and_eq_true] at hcon
          have hstr := pyEndsWithR_strip v hcon.2
          rw [hcon.1, hstr] at htrig
          exact absurd htrig (by simp)
        rw [if_neg hraw]
  · have hs' : startsWithAny line ["Diffuse", "Normal", "SpecPower", "Other[0]"] = false := by
      revert hs
      cases startsWithAny line ["Diffuse", "Normal", "SpecPower", "Other[0]"] <;> simp
    rw [hs', Bool.false_and] at heff
    exact absurd heff (by simp)

theorem fold_legacy_noop (lines : List String) :
    ∀ st : MatNames, (∀ l ∈ lines, legacyEffective l = false) →
    lines.foldl matLineStepLegacy st = st := by
  induction lines with
  | nil => intro st _; rfl
  | cons l rest ih =>
    intro st h
    rw [List.foldl_cons, matLineStepLegacy_noop st l (h l (List.mem_cons_self l rest))]
    exact ih st (fun x hx => h x (List.mem_cons_of_mem l hx))

theorem fold_legacy_derives (lines : List String) :
    ∀ st : MatNames, (∀ l ∈ lines, otherRoughTriggerLegacy l = false) →
    (∃ l ∈ lines, legacyEffective l = true) →
    (lines.foldl matLineStepLegacy st).rough =
      (lines.foldl matLineStepLegacy st).diffuse.dropRight 1 ++ "R" := by
  induction lines with
  | nil =>
    intro st _ hex
    obtain ⟨l, hl, _⟩ := hex
    exact absurd hl (List.not_mem_nil l)
  | cons l rest ih =>
    intro st htrig hex
    rw [List.foldl_cons]
    by_cases hrest : ∃ x ∈ rest, legacyEffective x = true
    · exact ih _ (fun x hx => htrig x (List.mem_cons_of_mem l hx)) hrest
    · have hall : ∀ x ∈ rest, legacyEffective x = false := by
        intro x hx
        by_contra hcon
        exact hrest ⟨x, hx, by revert hcon; cases legacyEffective x <;> simp⟩
      rw [fold_legacy_noop rest _ hall]
      have heff : legacyEffective l = true := by
        obtain ⟨x, hx, hxe⟩ := hex
        rcases List.mem_cons.mp hx with h1 | h2
        · rw [← h1]; exact hxe
        · rw [hall x h2] at hxe; exact absurd hxe (by simp)
      exact matLineStepLegacy_derives st l (htrig l (List.mem_cons_self l rest)) heff

/-- Any line that changes the diffuse field is effective; so a run with no
effective lines leaves diffuse empty. -/
theorem legacy_diffuse_needs_effective (lines : List String)
    (hd : (parseMatFileLegacy lines).diffuse ≠ "") :
    ∃ l ∈ lines, legacyEffective l = true := by
  by_contra hcon
  have hall : ∀ x ∈ lines, legacyEffective x = false := by
    intro x hx
    by_contra hcx
    exact hcon ⟨x, hx, by revert hcx; cases legacyEffective x <;> simp⟩
  have : parseMatFileLegacy lines = matNamesInit := fold_legacy_noop lines matNamesInit hall
  rw [this] at hd
  exact hd rfl

/-- C4: in both material importers, when the parsed diffuse name is non-empty
and no `Other[` line has a (stripped) value ending in `R` — in particular when
no `Other[` line exists at all — the roughness name is the diffuse name with
its last character dropped and `R` appended. -/
theorem c4_roughness_fallback (lines : List String)
    (hno : ∀ l ∈ lines, otherRoughTrigger l = false)
    (hnoL : ∀ l ∈ lines, otherRoughTriggerLegacy l = false)
    (hd : (parseMatFile lines).diffuse ≠ "")
    (hdL : (parseMatFileLegacy lines).diffuse ≠ "") :
    (parseMatFile lines).rough =
      (parseMatFile lines).diffuse.dropRight 1 ++ "R" ∧
    (parseMatFileLegacy lines).rough =
      (parseMatFileLegacy lines).diffuse.dropRight 1 ++ "R" := by
  constructor
  · have hr : (lines.foldl matLineStep matNamesInit).rough = "" :=
      fold_mat_rough lines matNamesInit hno
    have hdiff : (parseMatFile lines).diffuse =
        (lines.foldl matLineStep matNamesInit).diffuse := by
      unfold parseMatFile
      dsimp only
      split_ifs <;> rfl
    have hd' : (lines.foldl matLineStep matNamesInit).diffuse ≠ "" := by
      rw [hdiff] at hd
      exact hd
    unfold parseMatFile
    dsimp only
    rw [if_pos (by rw [hr]; simp [hd'])]
  · exact fold_legacy_derives lines matNamesInit hnoL
      (legacy_diffuse_needs_effective lines hdL)

/-- Witness for C4: the spec's example — a `.mat` file whose only lines are a
diffuse entry `Foo_D` and a normal entry, with no `Other[` line — derives
roughness name `Foo_R` in both importers. -/
theorem c4_witness :
    (parseMatFile ["Diffuse=Foo_D\n", "Normal=Foo_N\n"]).rough = "Foo_R" ∧
    (parseMatFileLegacy ["Diffuse=Foo_D\n", "Normal=Foo_N\n"]).rough = "Foo_R" := by
  have h := c4_roughness_fallback ["Diffuse=Foo_D\n", "Normal=Foo_N\n"]
    (by decide) (by decide) (by decide) (by decide)
  exact ⟨by rw [h.1]; rfl, by rw [h.2]; rfl⟩

/-! ## C6: fuzzy audio matching -/

/-- Spec-side view of the substring-hit count of one name. -/
def fuzzySubstrCount (keywords : List String) (name : String) : ℕ :=
  (keywords.filter
    (fun kw => listContainsSub kw.data (name.data.map Char.toLower))).length

/-- Spec-side view of the exact whole-segment hit count of one name. -/
def fuzzyExactCount (keywords : List String) (name : String) : ℕ :=
  (keywords.filter
    (fun kw =>
      ((pySplitChar '_' (name.data.map Char.toLower)).map String.mk).contains
        kw)).length

/-- The maximum score over the index (0 when the index is empty). -/
def specBestScore (keywords : List String) (index : List (String × String)) :
    ℚ :=
  index.foldl (fun a np => max a (fuzzyScore keywords np.1)) 0

theorem listContainsSub_of_isInfix {n h : List Char} (hi : n <:+: h) :
    listContainsSub n h = true := by
  induction h with
  | nil =>
    have hlen := hi.length_le
    simp only [List.length_nil, Nat.le_zero] at hlen
    have hn : n = [] := List.length_eq_zero.mp hlen
    simp [listContainsSub, hn]
  | cons c t ih =>
    unfold listContainsSub
    rw [Bool.or_eq_true]
    rcases List.infix_cons_iff.mp hi with hp | hinf
    · exact Or.inl (List.isPrefixOf_iff_prefix.mpr hp)
    · exact Or.inr (ih hinf)

theorem takeWhile_ne_of_not_mem {sep : Char} :
    ∀ {l : List Char}, sep ∉ l → l.takeWhile (· ≠ sep) = l := by
  intro l
  induction l with
  | nil => intro _; rfl
  | cons c t ih =>
    intro h
    have hc : ¬ c = sep := fun hcs => h (by rw [hcs]; exact List.mem_cons_self _ _)
    have ht : sep ∉ t := fun hts => h (List.mem_cons_of_mem c hts)
    simp only [List.takeWhile_cons]
    rw [if_pos (by simp [hc]), ih ht]

theorem pySplitChar_head_prefix (sep : Char) (l : List Char) :
    ∃ rest, pySplitChar sep l = (l.takeWhile (· ≠ sep)) :: rest := by
  by_cases h : sep ∈ l
  · obtain ⟨rest, hr, _⟩ := pySplitChar_mem h
    exact ⟨rest, hr⟩
  · refine ⟨[], ?_⟩
    rw [pySplitChar_not_mem h, takeWhile_ne_of_not_mem h]

theorem mem_pySplitChar_isInfix (sep : Char) :
    ∀ (l p : List Char), p ∈ pySplitChar sep l → p <:+: l := by
  intro l
  induction l with
  | nil =>
    intro p hp
    have : p = [] := by simpa [pySplitChar] using hp
    simp [this]
  | cons c t ih =>
    intro p hp
    by_cases hc : c = sep
    · subst hc
      rw [show pySplitChar c (c :: t) = [] :: pySplitChar c t from by
        simp [pySplitChar]] at hp
      rcases List.mem_cons.mp hp with h1 | h2
      · simp [h1]
      · exact List.infix_cons (ih p h2)
    · obtain ⟨rest, hr⟩ := pySplitChar_head_prefix sep t
      have hshape : pySplitChar sep (c :: t) =
          (c :: t.takeWhile (· ≠ sep)) :: rest := by
        simp only [pySplitChar, hr]
        rw [if_neg hc]
      rw [hshape] at hp
      rcases List.mem_cons.mp hp with h1 | h2
      · subst h1
        have htw : (c :: t).takeWhile (· ≠ sep) =
            c :: t.takeWhile (· ≠ sep) := by
          simp only [List.takeWhile_cons]
          rw [if_pos (by simp [hc])]
        rw [← htw]
        exact (List.takeWhile_prefix _).isInfix
      · have hpt : p ∈ pySplitChar sep t := by
          rw [hr]; exact List.mem_cons_of_mem _ h2
        exact List.infix_cons (ih p hpt)

theorem exact_imp_substr (nl : List Char) (kw : String)
    (h : ((pySplitChar '_' nl).map String.mk).contains kw = true) :
    listContainsSub kw.data nl = true := by
  rw [List.contains_eq_any_beq] at h
  rw [List.any_eq_true] at h
  obtain ⟨x, hx, hbeq⟩ := h
  obtain ⟨part, hpart, hmk⟩ := List.mem_map.mp hx
  have hkw : kw = x := by
    have := eq_of_beq hbeq
    exact this
  have hdata : kw.data = part := by
    rw [hkw, ← hmk]
  rw [hdata]
  exact listContainsSub_of_isInfix (mem_pySplitChar_isInfix '_' nl part hpart)

/-- The score of a name equals substring hits plus half a point per exact
segment hit, with no side condition: the `if score > 0` guard in the source
is redundant because an exact segment hit is also a substring hit. -/
theorem fuzzyScore_eq (keywords : List String) (name : String) :
    fuzzyScore keywords name =
      (fuzzySubstrCount keywords name : ℚ) +
      (fuzzyExactCount keywords name : ℚ) * (1 / 2) := by
  have hle : fuzzyExactCount keywords name ≤ fuzzySubstrCount keywords name := by
    unfold fuzzyExactCount fuzzySubstrCount
    rw [← List.countP_eq_length_filter, ← List.countP_eq_length_filter]
    apply List.countP_mono_left
    intro kw _ hkw
    exact exact_imp_substr (name.data.map Char.toLower) kw hkw
  unfold fuzzyScore fuzzySubstrCount fuzzyExactCount
  dsimp only
  split_ifs with h
  · rfl
  · have hc : (keywords.filter (fun kw =>
        listContainsSub kw.data (name.data.map Char.toLower))).length = 0 := by
      omega
    have he : (keywords.filter (fun kw =>
        ((pySplitChar '_' (name.data.map Char.toLower)).map String.mk).contains
          kw)).length = 0 := by
      unfold fuzzyExactCount fuzzySubstrCount at hle
      omega
    rw [hc, he]
    norm_num

theorem fuzzyBest_fst_general (keywords : List String) :
    ∀ (index : List (String × String)) (a : ℚ) (m : Option String),
      (index.foldl
        (fun acc np =>
          let s := fuzzyScore keywords np.1
          if acc.1 < s then (s, some np.2) else acc) (a, m)).1 =
      index.foldl (fun x np => max x (fuzzyScore keywords np.1)) a := by
  intro index
  induction index with
  | nil => intro a m; rfl
  | cons np rest ih =>
    intro a m
    rw [List.foldl_cons, List.foldl_cons]
    dsimp only
    by_cases h : a < fuzzyScore keywords np.1
    · rw [if_pos h, max_eq_right h.le]
      exact ih _ _
    · rw [if_neg h, max_eq_left (not_lt.mp h)]
      exact ih _ _

theorem fuzzyBest_disj (keywords : List String) :
    ∀ (index : List (String × String)) (acc : ℚ × Option String),
      index.foldl
        (fun acc np =>
          let s := fuzzyScore keywords np.1
          if acc.1 < s then (s, some np.2) else acc) acc = acc ∨
      (∃ n p, (n, p) ∈ index ∧
        index.foldl
          (fun acc np =>
            let s := fuzzyScore keywords np.1
            if acc.1 < s then (s, some np.2) else acc) acc =
          (fuzzyScore keywords n, some p)) := by
  intro index
  induction index with
  | nil => intro acc; exact Or.inl rfl
  | cons np rest ih =>
    intro acc
    rw [List.foldl_cons]
    dsimp only
    by_cases h : acc.1 < fuzzyScore keywords np.1
    · rw [if_pos h]
      rcases ih (fuzzyScore keywords np.1, some np.2) with h1 | h2
      · right
        exact ⟨np.1, np.2, List.mem_cons_self _ _, h1⟩
      · obtain ⟨n, p, hm, he⟩ := h2
        right
        exact ⟨n, p, List.mem_cons_of_mem _ hm, he⟩
    · rw [if_neg h]
      rcases ih acc with h1 | h2
      · exact Or.inl h1
      · obtain ⟨n, p, hm, he⟩ := h2
        right
        exact ⟨n, p, List.mem_cons_of_mem _ hm, he⟩

theorem foldl_max_le_general (keywords : List String) :
    ∀ (index : List (String × String)) (a : ℚ),
      a ≤ index.foldl (fun x np => max x (fuzzyScore keywords np.1)) a := by
  intro index
  induction index with
  | nil => intro a; exact le_refl a
  | cons np rest ih =>
    intro a
    rw [List.foldl_cons]
    exact le_trans (le_max_left _ _) (ih _)

theorem foldl_max_mem_general (keywords : List String) :
    ∀ (index : List (String × String)) (a : ℚ) (n : String) (p : String),
      (n, p) ∈ index →
      fuzzyScore keywords n ≤
        index.foldl (fun x np => max x (fuzzyScore keywords np.1)) a := by
  intro index
  induction index with
  | nil =>
    intro a n p hm
    exact absurd hm (List.not_mem_nil _)
  | cons np rest ih =>
    intro a n p hm
    rw [List.foldl_cons]
    rcases List.mem_cons.mp hm with h1 | h2
    · have hn : n = np.1 := by
        have := congrArg Prod.fst h1
        simpa using this
      rw [hn]
      exact le_trans (le_max_right _ _) (foldl_max_le_general keywords rest _)
    · exact ih _ n p h2

theorem fuzzyKeywords_empty : fuzzyKeywords "" = [] := rfl

theorem fuzzy_match_eq_some (audio_id : String) (index : List (String × String))
    (p : String) (hp : fuzzy_match_audio audio_id index = some p) :
    fuzzyKeywords audio_id ≠ [] ∧
    ((max 1 ((fuzzyKeywords audio_id).length / 2) : ℕ) : ℚ) ≤
      (fuzzyBest (fuzzyKeywords audio_id) index).1 ∧
    (fuzzyBest (fuzzyKeywords audio_id) index).2 = some p := by
  unfold fuzzy_match_audio at hp
  by_cases h1 : (audio_id = "" || index.isEmpty) = true
  · rw [if_pos h1] at hp
    exact absurd hp (by simp)
  · rw [if_neg h1] at hp
    dsimp only at hp
    by_cases h2 : (fuzzyKeywords audio_id).isEmpty = true
    · rw [if_pos h2] at hp
      exact absurd hp (by simp)
    · rw [if_neg h2] at hp
      by_cases h3 : ((max 1 ((fuzzyKeywords audio_id).length / 2) : ℕ) : ℚ) ≤
          (fuzzyBest (fuzzyKeywords audio_id) index).1
      · rw [if_pos h3] at hp
        refine ⟨?_, h3, hp⟩
        intro hk
        rw [hk] at h2
        exact h2 (by simp)
      · rw [if_neg h3] at hp
        exact absurd hp (by simp)

theorem minReq_pos (k : ℕ) : (1 : ℚ) ≤ ((max 1 k : ℕ) : ℚ) := by
  have : 1 ≤ max 1 k := le_max_left 1 k
  exact_mod_cast this

/-- C6: keyword scoring and acceptance of the fuzzy audio matcher.
(i) every name's score is its substring-hit count plus 0.5 per exact
whole-segment hit; (ii) a path is returned iff the keyword list is non-empty
and the best score over the index reaches `max(1, ⌊keywords/2⌋)` (so `None`
comes back whenever the keyword list is empty or the threshold is missed);
(iii) any returned path belongs to an index entry attaining the best score;
(iv) the best score bounds every entry's score. -/
theorem c6_fuzzy_match (audio_id : String) (index : List (String × String)) :
    (∀ name, fuzzyScore (fuzzyKeywords audio_id) name =
      (fuzzySubstrCount (fuzzyKeywords audio_id) name : ℚ) +
      (fuzzyExactCount (fuzzyKeywords audio_id) name : ℚ) * (1 / 2)) ∧
    ((∃ p, fuzzy_match_audio audio_id index = some p) ↔
      (fuzzyKeywords audio_id ≠ [] ∧
       ((max 1 ((fuzzyKeywords audio_id).length / 2) : ℕ) : ℚ) ≤
         specBestScore (fuzzyKeywords audio_id) index)) ∧
    (∀ p, fuzzy_match_audio audio_id index = some p →
      ∃ n, (n, p) ∈ index ∧
        fuzzyScore (fuzzyKeywords audio_id) n =
          specBestScore (fuzzyKeywords audio_id) index) ∧
    (∀ n p, (n, p) ∈ index →
      fuzzyScore (fuzzyKeywords audio_id) n ≤
        specBestScore (fuzzyKeywords audio_id) index) := by
  refine ⟨fun name => fuzzyScore_eq _ name, ?_, ?_, ?_⟩
  · constructor
    · rintro ⟨p, hp⟩
      obtain ⟨hk, hth, _⟩ := fuzzy_match_eq_some audio_id index p hp
      refine ⟨hk, ?_⟩
      unfold fuzzyBest at hth
      rw [fuzzyBest_fst_general] at hth
      exact hth
    · rintro ⟨hk, hth⟩
      have hne : ¬ (audio_id = "" || index.isEmpty) = true := by
        rw [Bool.or_eq_true]
        rintro (ha | hi)
        · rw [decide_eq_true_eq] at ha
          rw [ha] at hk
          exact hk fuzzyKeywords_empty
        · rw [List.isEmpty_iff] at hi
          rw [hi] at hth
          have h0 : specBestScore (fuzzyKeywords audio_id) [] = 0 := rfl
          rw [h0] at hth
          have := minReq_pos ((fuzzyKeywords audio_id).length / 2)
          linarith
      have hkne : ¬ (fuzzyKeywords audio_id).isEmpty = true := by
        rw [List.isEmpty_iff]
        exact hk
      unfold fuzzy_match_audio
      rw [if_neg hne, if_neg hkne]
      dsimp only
      rw [if_pos (by unfold fuzzyBest; rw [fuzzyBest_fst_general]; exact hth)]
      rcases fuzzyBest_disj (fuzzyKeywords audio_id) index (0, none) with h1 | h2
      · unfold fuzzyBest
        rw [h1]
        have h0 : specBestScore (fuzzyKeywords audio_id) index =
            (index.foldl
              (fun acc np =>
                let s := fuzzyScore (fuzzyKeywords audio_id) np.1
                if acc.1 < s then (s, some np.2) else acc)
              ((0 : ℚ), (none : Option String))).1 := by
          unfold specBestScore
          rw [fuzzyBest_fst_general]
        rw [h1] at h0
        rw [h0] at hth
        norm_num at hth
      · obtain ⟨n, p, _, he⟩ := h2
        unfold fuzzyBest
        rw [he]
        exact ⟨p, rfl⟩
  · intro p hp
    obtain ⟨_, _, hbp⟩ := fuzzy_match_eq_some audio_id index p hp
    rcases fuzzyBest_disj (fuzzyKeywords audio_id) index (0, none) with hd | hd
    · unfold fuzzyBest at hbp
      rw [hd] at hbp
      exact absurd hbp (by simp)
    · obtain ⟨n, p', hm, he⟩ := hd
      unfold fuzzyBest at hbp
      rw [he] at hbp
      simp only [Option.some.injEq] at hbp
      refine ⟨n, by rw [← hbp]; exact hm, ?_⟩
      have h0 : specBestScore (fuzzyKeywords audio_id) index =
          (index.foldl
            (fun acc np =>
              let s := fuzzyScore (fuzzyKeywords audio_id) np.1
              if acc.1 < s then (s, some np.2) else acc)
            ((0 : ℚ), (none : Option String))).1 := by
        unfold specBestScore
        rw [fuzzyBest_fst_general]
      rw [h0, he]
  · intro n p hm
    unfold specBestScore
    exact foldl_max_mem_general _ index 0 n p hm

/-- Witness for C6: the spec's example — keywords from `A_NextDoor_Skate`
against indexed name `A_E1_S02_ClassArt_NextDoor_Skate_01` score 3
(2 substrings + 1.0 exact-segment bonus), exceed the required minimum 1, and
the match succeeds. -/
theorem c6_witness :
    fuzzyKeywords "A_NextDoor_Skate" = ["nextdoor", "skate"] ∧
    fuzzySubstrCount ["nextdoor", "skate"]
      "A_E1_S02_ClassArt_NextDoor_Skate_01" = 2 ∧
    fuzzyExactCount ["nextdoor", "skate"]
      "A_E1_S02_ClassArt_NextDoor_Skate_01" = 2 ∧
    fuzzyScore ["nextdoor", "skate"] "A_E1_S02_ClassArt_NextDoor_Skate_01" =
      (2 : ℚ) + (2 : ℚ) * (1 / 2) ∧
    fuzzy_match_audio "A_NextDoor_Skate"
      [("A_E1_S02_ClassArt_NextDoor_Skate_01", "p1")] = some "p1" := by
  have hsc := (c6_fuzzy_match "A_NextDoor_Skate"
    [("A_E1_S02_ClassArt_NextDoor_Skate_01", "p1")]).1
    "A_E1_S02_ClassArt_NextDoor_Skate_01"
  have hkw : fuzzyKeywords "A_NextDoor_Skate" = ["nextdoor", "skate"] := by
    decide
  have hsub : fuzzySubstrCount ["nextdoor", "skate"]
      "A_E1_S02_ClassArt_NextDoor_Skate_01" = 2 := by decide
  have hex : fuzzyExactCount ["nextdoor", "skate"]
      "A_E1_S02_ClassArt_NextDoor_Skate_01" = 2 := by decide
  refine ⟨hkw, hsub, hex, ?_, ?_⟩
  · rw [hkw] at hsc
    rw [hsc, hsub, hex]
    norm_num
  · have hiff := (c6_fuzzy_match "A_NextDoor_Skate"
      [("A_E1_S02_ClassArt_NextDoor_Skate_01", "p1")]).2.1
    have hmem := (c6_fuzzy_match "A_NextDoor_Skate"
      [("A_E1_S02_ClassArt_NextDoor_Skate_01", "p1")]).2.2.1
    have hth : ((max 1 ((fuzzyKeywords "A_NextDoor_Skate").length / 2) : ℕ) : ℚ) ≤
        specBestScore (fuzzyKeywords "A_NextDoor_Skate")
          [("A_E1_S02_ClassArt_NextDoor_Skate_01", "p1")] := by
      rw [hkw]
      have hb : specBestScore ["nextdoor", "skate"]
          [("A_E1_S02_ClassArt_NextDoor_Skate_01", "p1")] =
          max 0 (fuzzyScore ["nextdoor", "skate"]
            "A_E1_S02_ClassArt_NextDoor_Skate_01") := rfl
      rw [hb]
      rw [hkw] at hsc
      rw [hsc, hsub, hex]
      norm_num
    obtain ⟨p, hp⟩ := hiff.mpr ⟨by rw [hkw]; simp, hth⟩
    obtain ⟨n, hmem2, _⟩ := hmem p hp
    have hn : n = "A_E1_S02_ClassArt_NextDoor_Skate_01" ∧ p = "p1" := by
      simpa using hmem2
    rw [hp, hn.2]

/-! ## C7: animation-reference collection -/

/-- Reachability of a sub-value by descending through dict fields and list
elements — the set of values the recursive search visits. -/
inductive Reaches : JValue → JValue → Prop where
  | refl (v : JValue) : Reaches v v
  | obj {fields : List (String × JValue)} {k : String} {w u : JValue}
      (hm : (k, w) ∈ fields) (h : Reaches w u) : Reaches (.obj fields) u
  | arr {items : List JValue} {w u : JValue}
      (hm : w ∈ items) (h : Reaches w u) : Reaches (.arr items) u

/-- The condition under which one dict contributes an animation name: its
`ObjectName` contains the `AnimSequence` tag and the pattern search captures
`nm`. -/
def animCond (fields : List (String × JValue)) (nm : String) : Prop :=
  let objName : String :=
    match fields.lookup "ObjectName" with
    | some (.str s) => s
    | _ => ""
  listContainsSub animTag objName.data = true ∧
  animSearch objName.data = some nm

theorem jvalue_size_ind {motive : JValue → Prop}
    (ih : ∀ v, (∀ w, sizeOf w < sizeOf v → motive w) → motive v)
    (v : JValue) : motive v := by
  have H : ∀ (n : ℕ) (v : JValue), sizeOf v < n → motive v := by
    intro n
    induction n with
    | zero => intro v h; omega
    | succ n ihn =>
      intro v h
      exact ih v (fun w hw => ihn w (by omega))
  exact H (sizeOf v + 1) v (by omega)

theorem extractAnimFields_mem (nm : String) :
    ∀ fields : List (String × JValue),
      nm ∈ extractAnimFields fields ↔
      ∃ k w, (k, w) ∈ fields ∧ nm ∈ extractAnimNames w := by
  intro fields
  induction fields with
  | nil => simp [extractAnimFields]
  | cons kv rest ih =>
    obtain ⟨k, w⟩ := kv
    rw [show extractAnimFields ((k, w) :: rest) =
        extractAnimNames w ++ extractAnimFields rest from rfl]
    rw [List.mem_append, ih]
    constructor
    · rintro (h1 | ⟨k2, w2, hm, hw⟩)
      · exact ⟨k, w, List.mem_cons_self _ _, h1⟩
      · exact ⟨k2, w2, List.mem_cons_of_mem _ hm, hw⟩
    · rintro ⟨k2, w2, hm, hw⟩
      rcases List.mem_cons.mp hm with h1 | h2
      · left
        have hww : w2 = w := by
          have := congrArg Prod.snd h1
          simpa using this
        rw [← hww]
        exact hw
      · exact Or.inr ⟨k2, w2, h2, hw⟩

theorem extractAnimList_mem (nm : String) :
    ∀ items : List JValue,
      nm ∈ extractAnimList items ↔
      ∃ w ∈ items, nm ∈ extractAnimNames w := by
  intro items
  induction items with
  | nil => simp [extractAnimList]
  | cons v rest ih =>
    rw [show extractAnimList (v :: rest) =
        extractAnimNames v ++ extractAnimList rest from rfl]
    rw [List.mem_append, ih]
    constructor
    · rintro (h1 | ⟨w, hm, hw⟩)
      · exact ⟨v, List.mem_cons_self _ _, h1⟩
      · exact ⟨w, List.mem_cons_of_mem _ hm, hw⟩
    · rintro ⟨w, hm, hw⟩
      rcases List.mem_cons.mp hm with h1 | h2
      · left; rw [← h1]; exact hw
      · exact Or.inr ⟨w, h2, hw⟩

theorem animCond_here (fields : List (String × JValue)) (nm : String) :
    (nm ∈
      (if listContainsSub animTag
          (match fields.lookup "ObjectName" with
           | some (.str s) => s
           | _ => "").data then
        match animSearch
            (match fields.lookup "ObjectName" with
             | some (.str s) => s
             | _ => "").data with
        | some nm2 => [nm2]
        | none => []
      else [])) ↔ animCond fields nm := by
  unfold animCond
  dsimp only
  split_ifs with h1
  · cases h2 : animSearch
        (match fields.lookup "ObjectName" with
         | some (.str s) => s
         | _ => "").data with
    | none => simp
    | some nm2 => simp [h1, eq_comm]
  · simp only [List.not_mem_nil, false_iff]
    intro hc
    exact h1 hc.1

theorem extractAnimNames_mem (v : JValue) :
    ∀ nm : String,
      nm ∈ extractAnimNames v ↔
      ∃ fields, Reaches v (.obj fields) ∧ animCond fields nm := by
  induction v using jvalue_size_ind with
  | ih v ihw =>
    intro nm
    cases v with
    | null =>
      simp only [extractAnimNames, List.not_mem_nil, false_iff]
      rintro ⟨fields, hr, _⟩
      cases hr
    | bool b =>
      simp only [extractAnimNames, List.not_mem_nil, false_iff]
      rintro ⟨fields, hr, _⟩
      cases hr
    | num q =>
      simp only [extractAnimNames, List.not_mem_nil, false_iff]
      rintro ⟨fields, hr, _⟩
      cases hr
    | str s =>
      simp only [extractAnimNames, List.not_mem_nil, false_iff]
      rintro ⟨fields, hr, _⟩
      cases hr
    | arr items =>
      simp only [extractAnimNames]
      rw [extractAnimList_mem]
      constructor
      · rintro ⟨w, hm, hw⟩
        have hsz : sizeOf w < sizeOf (JValue.arr items) := by
          have := List.sizeOf_lt_of_mem hm
          simp only [JValue.arr.sizeOf_spec]
          omega
        obtain ⟨fields, hr, hc⟩ := (ihw w hsz nm).mp hw
        exact ⟨fields, Reaches.arr hm hr, hc⟩
      · rintro ⟨fields, hr, hc⟩
        cases hr with
        | arr hm hr2 =>
          rename_i w
          have hsz : sizeOf w < sizeOf (JValue.arr items) := by
            have := List.sizeOf_lt_of_mem hm
            simp only [JValue.arr.sizeOf_spec]
            omega
          exact ⟨w, hm, (ihw w hsz nm).mpr ⟨fields, hr2, hc⟩⟩
    | obj fields =>
      simp only [extractAnimNames]
      rw [List.mem_append, animCond_here, extractAnimFields_mem]
      constructor
      · rintro (hc | ⟨k, w, hm, hw⟩)
        · exact ⟨fields, Reaches.refl _, hc⟩
        · have hsz : sizeOf w < sizeOf (JValue.obj fields) := by
            have h1 := List.sizeOf_lt_of_mem hm
            have h2 : sizeOf w < sizeOf (k, w) := by
              simp
            simp only [JValue.obj.sizeOf_spec]
            omega
          obtain ⟨fields2, hr, hc⟩ := (ihw w hsz nm).mp hw
          exact ⟨fields2, Reaches.obj hm hr, hc⟩
      · rintro ⟨fields2, hr, hc⟩
        cases hr with
        | refl => exact Or.inl hc
        | obj hm hr2 =>
          rename_i k w
          have hsz : sizeOf w < sizeOf (JValue.obj fields) := by
            have h1 := List.sizeOf_lt_of_mem hm
            have h2 : sizeOf w < sizeOf (k, w) := by
              simp
            simp only [JValue.obj.sizeOf_spec]
            omega
          exact Or.inr ⟨k, w, hm, (ihw w hsz nm).mpr ⟨fields2, hr2, hc⟩⟩

/-- The invariant carried through `_collect_anim_tracks`: collected paths are
pairwise distinct and all recorded in `seen_paths`. -/
def TrackInv (acc : List String × List AnimTrack) : Prop :=
  (acc.2.map AnimTrack.path).Nodup ∧ ∀ t ∈ acc.2, t.path ∈ acc.1

theorem trackInv_extend {seen : List String} {out : List AnimTrack}
    (h : TrackInv (seen, out)) (obj_path : String) :
    TrackInv (seen ++ [obj_path], out) := by
  refine ⟨h.1, fun t ht => ?_⟩
  exact List.mem_append_left _ (h.2 t ht)

theorem trackInv_add {seen : List String} {out : List AnimTrack}
    (h : TrackInv (seen, out)) (obj_path : String) (hnp : obj_path ∉ seen)
    (tr : AnimTrack) (htr : tr.path = obj_path) :
    TrackInv (seen ++ [obj_path], out ++ [tr]) := by
  constructor
  · rw [List.map_append, List.nodup_append]
    refine ⟨h.1, by simp, ?_⟩
    intro a ha hax
    simp only [List.map_cons, List.map_nil, List.mem_singleton] at hax
    have h1 : a ∈ seen := by
      obtain ⟨t, ht, hat⟩ := List.mem_map.mp ha
      rw [← hat]
      exact h.2 t ht
    rw [hax, htr] at h1
    exact hnp h1
  · intro t ht
    rcases List.mem_append.mp ht with h1 | h2
    · exact List.mem_append_left _ (h.2 t h1)
    · have : t = tr := by simpa using h2
      rw [this, htr]
      exact List.mem_append_right _ (by simp)

theorem collectSeqs_inv (outer slot_name : String) :
    ∀ (seqs : List JValue) (acc : List String × List AnimTrack),
      TrackInv acc → TrackInv (collectSeqs outer slot_name acc seqs) := by
  intro seqs
  induction seqs with
  | nil => intro acc h; exact h
  | cons anim_seq rest ih =>
    intro acc h
    obtain ⟨seen, out⟩ := acc
    rw [show collectSeqs outer slot_name (seen, out) (anim_seq :: rest) =
        collectSeqs outer slot_name
          (match asObj anim_seq with
           | none => (seen, out)
           | some seqFields =>
             match asObj (getObjD seqFields "AnimSeq") with
             | none => (seen, out)
             | some animRef =>
               let obj_path := (getStrD animRef "ObjectPath" "").getD ""
               let obj_name := (getStrD animRef "ObjectName" "").getD ""
               if obj_path = "" || seen.contains obj_path then (seen, out)
               else
                 let seen' := seen ++ [obj_path]
                 match collectName obj_name.data with
                 | some anim_name =>
                   (seen', out ++ [{ name := anim_name, path := obj_path,
                                     group := outer, slot := slot_name }])
                 | none => (seen', out)) rest from rfl]
    apply ih
    cases asObj anim_seq with
    | none => exact h
    | some seqFields =>
      dsimp only
      cases asObj (getObjD seqFields "AnimSeq") with
      | none => exact h
      | some animRef =>
        dsimp only
        by_cases hg : ((getStrD animRef "ObjectPath" "").getD "" = "" ||
            seen.contains ((getStrD animRef "ObjectPath" "").getD "")) = true
        · rw [if_pos hg]
          exact h
        · rw [if_neg hg]
          have hnp : (getStrD animRef "ObjectPath" "").getD "" ∉ seen := by
            intro hmem
            apply hg
            rw [Bool.or_eq_true]
            right
            rw [show (seen.contains ((getStrD animRef "ObjectPath" "").getD "")) =
                seen.elem ((getStrD animRef "ObjectPath" "").getD "") from rfl]
            exact List.elem_iff.mpr hmem
          cases collectName ((getStrD animRef "ObjectName" "").getD "").data with
          | none => exact trackInv_extend h _
          | some anim_name => exact trackInv_add h _ hnp _ rfl

theorem collectTrackStep_inv (acc : List String × List AnimTrack)
    (entity : JValue) (h : TrackInv acc) :
    TrackInv (collectTrackStep acc entity) := by
  unfold collectTrackStep
  cases asObj entity with
  | none => exact h
  | some ent =>
    dsimp only
    by_cases ht : (getStrD ent "Type" "").getD "" = "InterpTrackAnimControl"
    · rw [if_neg (by simp [ht])]
      cases asObj (getObjD ent "Properties") with
      | none => exact h
      | some props => exact collectSeqs_inv _ _ _ acc h
    · rw [if_pos ht]
      exact h

theorem collectAnimTracks_nodup (entities : List JValue) :
    ((collectAnimTracks entities).map AnimTrack.path).Nodup := by
  have H : ∀ (es : List JValue) (acc : List String × List AnimTrack),
      TrackInv acc → TrackInv (es.foldl collectTrackStep acc) := by
    intro es
    induction es with
    | nil => intro acc h; exact h
    | cons e rest ih =>
      intro acc h
      rw [List.foldl_cons]
      exact ih _ (collectTrackStep_inv acc e h)
  exact (H entities ([], []) ⟨by simp, by simp⟩).1

/-- C7 counterexample: two nested dicts referencing the same animation object
produce the name twice in `anim_sequences` — `_extract_anim_references` does
*not* deduplicate, contradicting the claim that no object path contributes
more than one entry to the collected list. -/
theorem c7_counterexample :
    extractAnimNames (JValue.obj
      [("A", JValue.obj
          [("ObjectName", JValue.str "AnimSequence\x27Walk\x27")]),
       ("B", JValue.arr [JValue.obj
          [("ObjectName", JValue.str "AnimSequence\x27Walk\x27")]])]) =
      ["Walk", "Walk"] ∧
    ¬ (["Walk", "Walk"] : List String).Nodup := by
  exact ⟨by decide, by decide⟩

/-- C7 (amended): the SkeletalMesh builder's recursive search collects
exactly the names whose `AnimSequence'...'` pattern matches the `ObjectName`
of some dict reachable through nested dict fields and list elements — every
match is collected, but *without* deduplication (see the counterexample).
Path-based deduplication happens only in `_collect_anim_tracks`, whose
collected track list never repeats an object path. -/
theorem c7_anim_collection :
    (∀ (v : JValue) (nm : String),
      nm ∈ extractAnimNames v ↔
      ∃ fields, Reaches v (.obj fields) ∧ animCond fields nm) ∧
    (∀ entities : List JValue,
      ((collectAnimTracks entities).map AnimTrack.path).Nodup) := by
  exact ⟨fun v nm => extractAnimNames_mem v nm,
         fun entities => collectAnimTracks_nodup entities⟩

/-- Witness for C7: the reachability characterization applied at a concrete
nested entity containing one animation reference. -/
theorem c7_witness :
    ∃ fields, Reaches (JValue.obj [("LDA", JValue.arr [JValue.obj
        [("ObjectName", JValue.str "AnimSequence\x27Idle\x27")]])])
      (.obj fields) ∧ animCond fields "Idle" := by
  exact (c7_anim_collection.1 _ "Idle").mp (by decide)

/-! ## C8: duplicate-name material dedup -/

/-- The condition under which the material loop schedules `m` for removal. -/
def removeCond (mats : List String) (m : String) : Bool :=
  isWorldGrid m || (isDotted m && (mats.contains (matBase m) && matBase m ≠ m))

/-- The condition under which the material loop repoints `m`'s slots. -/
def repointCond (mats : List String) (m : String) : Bool :=
  !isWorldGrid m && (isDotted m && (mats.contains (matBase m) && matBase m ≠ m))

/-- The cumulative effect of the deferred unlink loop on one slot value. -/
def unlinkAll (tr : List String) : Option String → Option String
  | some n => if tr.contains n then none else some n
  | none => none

theorem removeCond_true_iff (mats : List String) (m : String) :
    removeCond mats m = true ↔
      (isWorldGrid m = true ∨
       (isDotted m = true ∧ matBase m ∈ mats ∧ ¬ matBase m = m)) := by
  unfold removeCond
  rw [Bool.or_eq_true, Bool.and_eq_true, Bool.and_eq_true, decide_eq_true_eq,
      show mats.contains (matBase m) = List.elem (matBase m) mats from rfl,
      List.elem_iff]

theorem repointCond_true_iff (mats : List String) (m : String) :
    repointCond mats m = true ↔
      (isWorldGrid m = false ∧ isDotted m = true ∧ matBase m ∈ mats ∧
       ¬ matBase m = m) := by
  unfold repointCond
  rw [Bool.and_eq_true, Bool.and_eq_true, Bool.and_eq_true, decide_eq_true_eq,
      Bool.not_eq_true',
      show mats.contains (matBase m) = List.elem (matBase m) mats from rfl,
      List.elem_iff]

theorem matPassStep_snd (origSlots : List (Option String)) (mats : List String)
    (cur : List (Option String)) (tr : List String) (m : String) :
    (matPassStep origSlots mats (cur, tr) m).2 =
      tr ++ (if removeCond mats m then [m] else []) := by
  unfold matPassStep
  dsimp only
  by_cases h1 : isWorldGrid m = true
  · rw [if_pos h1,
        if_pos (show removeCond mats m = true from by
          simp [removeCond, h1])]
  · have h1f : isWorldGrid m = false := by
      revert h1; cases isWorldGrid m <;> simp
    rw [if_neg h1]
    by_cases h2 : isDotted m = true
    · rw [if_pos h2]
      by_cases h3 : (mats.contains (matBase m) && decide (matBase m ≠ m)) = true
      · have h3p : matBase m ∈ mats ∧ ¬ matBase m = m := by
          rw [Bool.and_eq_true, decide_eq_true_eq] at h3
          exact ⟨List.elem_iff.mp h3.1, h3.2⟩
        rw [if_pos h3,
            if_pos (show removeCond mats m = true from by
              simp [removeCond, h1f, h2]
              exact h3p)]
      · rw [if_neg h3,
            if_neg (show ¬ removeCond mats m = true from by
              simp [removeCond, h1f, h2]
              intro hmem
              by_contra hne
              exact h3 (by
                rw [Bool.and_eq_true, decide_eq_true_eq]
                exact ⟨List.elem_iff.mpr hmem, hne⟩))]
        simp
    · have h2f : isDotted m = false := by
        revert h2; cases isDotted m <;> simp
      rw [if_neg h2,
          if_neg (show ¬ removeCond mats m = true from by
            simp [removeCond, h1f, h2f])]
      simp

theorem matPassStep_fst (origSlots : List (Option String)) (mats : List String)
    (cur : List (Option String)) (tr : List String) (m : String)
    (hlen : cur.length = origSlots.length) :
    (matPassStep origSlots mats (cur, tr) m).1.length = origSlots.length ∧
    ∀ i : ℕ, (matPassStep origSlots mats (cur, tr) m).1[i]? =
      if origSlots[i]? = some (some m) ∧ repointCond mats m = true
      then some (some (matBase m)) else cur[i]? := by
  have hid : ∀ (hrc : repointCond mats m = false),
      (matPassStep origSlots mats (cur, tr) m).1 = cur := by
    intro hrc
    unfold matPassStep
    dsimp only
    by_cases h1 : isWorldGrid m = true
    · rw [if_pos h1]
    · have h1f : isWorldGrid m = false := by
        revert h1; cases isWorldGrid m <;> simp
      rw [if_neg h1]
      by_cases h2 : isDotted m = true
      · rw [if_pos h2]
        by_cases h3 : (mats.contains (matBase m) && decide (matBase m ≠ m)) = true
        · exfalso
          have hct : repointCond mats m = true := by
            unfold repointCond
            rw [h1f, h2, h3]
            rfl
          rw [hrc] at hct
          exact absurd hct (by simp)
        · rw [if_neg h3]
      · rw [if_neg h2]
  have hrepoint : ∀ (hrc : repointCond mats m = true),
      (matPassStep origSlots mats (cur, tr) m).1 =
        (cur.zip origSlots).map
          (fun co => if co.2 = some m then some (matBase m) else co.1) := by
    intro hrc
    unfold repointCond at hrc
    rw [Bool.and_eq_true, Bool.and_eq_true] at hrc
    obtain ⟨hw, hd, hx⟩ := hrc
    rw [Bool.not_eq_true'] at hw
    unfold matPassStep
    dsimp only
    rw [if_neg (by rw [hw]; simp), if_pos hd, if_pos hx]
  have hmap : ∀ i : ℕ,
      ((cur.zip origSlots).map
        (fun co => if co.2 = some m then some (matBase m) else co.1))[i]? =
      if origSlots[i]? = some (some m) then some (some (matBase m))
      else cur[i]? := by
    intro i
    rw [List.getElem?_map,
        show cur.zip origSlots = List.zipWith Prod.mk cur origSlots from rfl,
        List.getElem?_zipWith]
    cases hco : cur[i]? with
    | none =>
      have hl2 : origSlots.length ≤ i := by
        rw [List.getElem?_eq_none_iff] at hco
        omega
      have hoo : origSlots[i]? = none := List.getElem?_eq_none hl2
      rw [hoo]
      rw [if_neg (by simp)]
      simp
    | some c =>
      cases hoo : origSlots[i]? with
      | none =>
        rw [List.getElem?_eq_none_iff] at hoo
        have hcn : cur[i]? = none := List.getElem?_eq_none (by omega)
        rw [hco] at hcn
        exact absurd hcn (by simp)
      | some o =>
        simp only [Option.map_some']
        by_cases ho : o = some m
        · rw [if_pos ho, if_pos (by rw [ho])]
        · rw [if_neg ho, if_neg (by simpa using ho)]
  by_cases hrc : repointCond mats m = true
  · rw [hrepoint hrc]
    constructor
    · rw [List.length_map, List.length_zip, hlen]
      omega
    · intro i
      rw [hmap i]
      by_cases hcond : origSlots[i]? = some (some m)
      · rw [if_pos hcond, if_pos ⟨hcond, hrc⟩]
      · rw [if_neg hcond, if_neg (fun hc => hcond hc.1)]
  · have hrc' : repointCond mats m = false := by
      revert hrc
      cases repointCond mats m <;> simp
    rw [hid hrc']
    refine ⟨hlen, fun i => ?_⟩
    rw [if_neg (fun hc => by rw [hrc'] at hc; exact absurd hc.2 (by simp))]


theorem matPass_toRemove (origSlots : List (Option String)) (mats : List String) :
    ∀ (ms : List String) (cur : List (Option String)) (tr : List String),
      (ms.foldl (matPassStep origSlots mats) (cur, tr)).2 =
        tr ++ ms.filter (removeCond mats) := by
  intro ms
  induction ms with
  | nil => intro cur tr; simp
  | cons m rest ih =>
    intro cur tr
    rw [List.foldl_cons]
    rw [show matPassStep origSlots mats (cur, tr) m =
        ((matPassStep origSlots mats (cur, tr) m).1,
         (matPassStep origSlots mats (cur, tr) m).2) from rfl]
    rw [ih, matPassStep_snd, List.filter_cons]
    by_cases hc : removeCond mats m = true
    · simp [hc]
    · simp [hc]

theorem matPass_slots (origSlots : List (Option String)) (mats : List String) :
    ∀ (ms : List String) (cur : List (Option String)) (tr : List String),
      cur.length = origSlots.length →
      (ms.foldl (matPassStep origSlots mats) (cur, tr)).1.length =
        origSlots.length ∧
      (∀ (i : ℕ) (n : String), origSlots[i]? = some (some n) →
        (ms.foldl (matPassStep origSlots mats) (cur, tr)).1[i]? =
          if n ∈ ms ∧ repointCond mats n = true
          then some (some (matBase n)) else cur[i]?) := by
  intro ms
  induction ms with
  | nil =>
    intro cur tr hlen
    refine ⟨hlen, fun i n _ => ?_⟩
    rw [if_neg (by simp)]
    rfl
  | cons m rest ih =>
    intro cur tr hlen
    rw [List.foldl_cons]
    rw [show matPassStep origSlots mats (cur, tr) m =
        ((matPassStep origSlots mats (cur, tr) m).1,
         (matPassStep origSlots mats (cur, tr) m).2) from rfl]
    obtain ⟨hslen, hsget⟩ := matPassStep_fst origSlots mats cur tr m hlen
    obtain ⟨hflen, hfget⟩ := ih (matPassStep origSlots mats (cur, tr) m).1
      (matPassStep origSlots mats (cur, tr) m).2 hslen
    refine ⟨hflen, fun i n hoi => ?_⟩
    rw [hfget i n hoi, hsget i]
    by_cases hrest : n ∈ rest ∧ repointCond mats n = true
    · rw [if_pos hrest, if_pos ⟨List.mem_cons_of_mem _ hrest.1, hrest.2⟩]
    · rw [if_neg hrest]
      by_cases hm : origSlots[i]? = some (some m) ∧ repointCond mats m = true
      · have hnm : n = m := by
          have := hm.1
          rw [hoi] at this
          simpa using this
      -- n = m and repoint fires: both sides give the base
        rw [if_pos hm, if_pos ⟨by rw [hnm]; exact List.mem_cons_self _ _,
          by rw [hnm]; exact hm.2⟩, hnm]
      · rw [if_neg hm]
        rw [if_neg (fun hcon => ?_)]
        rcases List.mem_cons.mp hcon.1 with he | he
        · exact hm ⟨by rw [hoi, he], by rw [← he]; exact hcon.2⟩
        · exact hrest ⟨he, hcon.2⟩

theorem applyRemovals_snd :
    ∀ (tr : List String) (cur : List (Option String)) (ms : List String),
      (applyRemovals (cur, ms) tr).2 = ms.filter (fun x => !tr.contains x) := by
  intro tr
  induction tr with
  | nil =>
    intro cur ms
    rw [show applyRemovals (cur, ms) [] = (cur, ms) from rfl]
    rw [show (cur, ms).2 = ms from rfl]
    simp
  | cons r rest ih =>
    intro cur ms
    rw [show applyRemovals (cur, ms) (r :: rest) =
        applyRemovals (cur.map (fun s => if s = some r then none else s),
          ms.filter (· ≠ r)) rest from rfl]
    rw [ih, List.filter_filter]
    apply List.filter_congr
    intro x _
    rw [List.contains_cons]
    by_cases hx : x = r
    · simp [hx]
    · simp [hx]

theorem applyRemovals_fst :
    ∀ (tr : List String) (cur : List (Option String)) (ms : List String),
      (applyRemovals (cur, ms) tr).1 = cur.map (unlinkAll tr) := by
  intro tr
  induction tr with
  | nil =>
    intro cur ms
    rw [show applyRemovals (cur, ms) [] = (cur, ms) from rfl]
    rw [show (cur, ms).1 = cur from rfl]
    have h : cur.map (unlinkAll []) = cur.map id :=
      List.map_congr_left (fun s _ => by cases s <;> simp [unlinkAll])
    rw [h, List.map_id]
  | cons r rest ih =>
    intro cur ms
    rw [show applyRemovals (cur, ms) (r :: rest) =
        applyRemovals (cur.map (fun s => if s = some r then none else s),
          ms.filter (· ≠ r)) rest from rfl]
    rw [ih, List.map_map]
    apply List.map_congr_left
    intro s _
    cases s with
    | none => simp [unlinkAll]
    | some n =>
      by_cases hn : n = r
      · simp [unlinkAll, hn, List.contains_cons]
      · have h1 : ((some n : Option String) = some r) = False := by
          simp [hn]
        simp only [Function.comp_apply, h1, if_false]
        rw [show unlinkAll (r :: rest) (some n) =
            (if ((n == r) || rest.contains n) then none else some n) from by
          simp [unlinkAll, List.contains_cons]]
        rw [show ((n == r) : Bool) = false from by simp [hn]]
        rw [Bool.false_or]
        rfl

theorem isInfix_of_listContainsSub {n : List Char} :
    ∀ {h : List Char}, listContainsSub n h = true → n <:+: h := by
  intro h
  induction h with
  | nil =>
    intro hc
    unfold listContainsSub at hc
    rw [List.isEmpty_iff] at hc
    rw [hc]
  | cons c t ih =>
    intro hc
    unfold listContainsSub at hc
    rw [Bool.or_eq_true] at hc
    rcases hc with hp | hs
    · exact (List.isPrefixOf_iff_prefix.mp hp).isInfix
    · exact List.infix_cons (ih hs)

theorem isDotted_iff (m : String) : isDotted m = true ↔ '.' ∈ m.data := by
  constructor
  · intro hd
    by_contra hmem
    unfold isDotted at hd
    rw [pySplitChar_not_mem hmem] at hd
    exact Bool.noConfusion hd
  · intro hmem
    obtain ⟨rest, hr, hne⟩ := pySplitChar_mem hmem
    unfold isDotted
    rw [hr]
    cases rest with
    | nil => exact absurd rfl hne
    | cons a b => rfl

theorem matBase_data_of_dotted {m : String} (hd : isDotted m = true) :
    (matBase m).data = m.data.takeWhile (· ≠ '.') := by
  have hmem : '.' ∈ m.data := (isDotted_iff m).mp hd
  obtain ⟨rest, hr, _⟩ := pySplitChar_mem hmem
  unfold matBase
  rw [hr]
  rfl

theorem dot_not_mem_matBase {m : String} (hd : isDotted m = true) :
    '.' ∉ (matBase m).data := by
  rw [matBase_data_of_dotted hd]
  intro hmem
  have hp := List.mem_takeWhile_imp hmem
  simp at hp

theorem matBase_ne_of_dotted {m : String} (hd : isDotted m = true) :
    matBase m ≠ m := by
  intro he
  have hmem : '.' ∈ m.data := (isDotted_iff m).mp hd
  have hnot := dot_not_mem_matBase hd
  rw [he] at hnot
  exact hnot hmem

theorem isDotted_matBase {m : String} (hd : isDotted m = true) :
    isDotted (matBase m) = false := by
  have hnot := dot_not_mem_matBase hd
  unfold isDotted
  rw [pySplitChar_not_mem hnot]

theorem matBase_data_front (m : String) : (matBase m).data <+: m.data := by
  by_cases hmem : '.' ∈ m.data
  · obtain ⟨rest, hr, _⟩ := pySplitChar_mem hmem
    unfold matBase
    rw [hr]
    exact List.takeWhile_prefix _
  · unfold matBase
    rw [pySplitChar_not_mem hmem]
    exact List.prefix_refl _

theorem isWorldGrid_matBase {m : String}
    (hw : isWorldGrid (matBase m) = true) : isWorldGrid m = true := by
  have hinf : "WorldGridMaterial".data <:+: (matBase m).data :=
    isInfix_of_listContainsSub hw
  exact listContainsSub_of_isInfix
    (hinf.trans (matBase_data_front m).isInfix)

theorem removeCond_matBase {mats : List String} {m : String}
    (hwg : isWorldGrid m = false) (hd : isDotted m = true) :
    removeCond mats (matBase m) = false := by
  have h1 : isWorldGrid (matBase m) = false := by
    by_contra h
    have h2 : isWorldGrid (matBase m) = true := by
      revert h; cases isWorldGrid (matBase m) <;> simp
    rw [isWorldGrid_matBase h2] at hwg
    exact Bool.noConfusion hwg
  have h2 : isDotted (matBase m) = false := isDotted_matBase hd
  unfold removeCond
  rw [h1, h2]
  rfl

set_option maxHeartbeats 1000000 in
/-- C8 (amended): for a material `m` of the collection whose name carries a
dot suffix and does not contain `WorldGridMaterial`: if its base name is also
in the collection, `m` is removed, the base survives, and every slot whose
snapshot referenced `m` ends up referencing the base; if the base is absent,
`m` is kept and slots referencing it are untouched.  (The claim as stated
additionally fails for names containing `WorldGridMaterial`, which the loop
removes unconditionally: see the counterexample.) -/
theorem c8_material_dedup (mats : List String) (slots : List (Option String))
    (m : String) (hm : m ∈ mats) (hwg : isWorldGrid m = false)
    (hd : isDotted m = true) :
    (matBase m ∈ mats →
       m ∉ (materialDedupPass mats slots).2 ∧
       matBase m ∈ (materialDedupPass mats slots).2 ∧
       ∀ i : ℕ, slots[i]? = some (some m) →
         (materialDedupPass mats slots).1[i]? = some (some (matBase m))) ∧
    (matBase m ∉ mats →
       m ∈ (materialDedupPass mats slots).2 ∧
       ∀ i : ℕ, slots[i]? = some (some m) →
         (materialDedupPass mats slots).1[i]? = some (some m)) := by
  have hbne : matBase m ≠ m := matBase_ne_of_dotted hd
  have hMDP : materialDedupPass mats slots =
      applyRemovals
        ((mats.foldl (matPassStep slots mats) (slots, [])).1, mats)
        (mats.foldl (matPassStep slots mats) (slots, [])).2 := rfl
  have hTR : (mats.foldl (matPassStep slots mats) (slots, [])).2 =
      mats.filter (removeCond mats) := by
    have h := matPass_toRemove slots mats mats slots []
    simpa using h
  obtain ⟨hlen1, hget1⟩ := matPass_slots slots mats mats slots [] rfl
  have hsnd : (materialDedupPass mats slots).2 =
      mats.filter (fun x => !(mats.filter (removeCond mats)).contains x) := by
    rw [hMDP, hTR, applyRemovals_snd]
  have hfst : (materialDedupPass mats slots).1 =
      (mats.foldl (matPassStep slots mats) (slots, [])).1.map
        (unlinkAll (mats.filter (removeCond mats))) := by
    rw [hMDP, hTR, applyRemovals_fst]
  constructor
  · intro hbase
    have hrc : removeCond mats m = true :=
      (removeCond_true_iff mats m).mpr (Or.inr ⟨hd, hbase, hbne⟩)
    have hrp : repointCond mats m = true :=
      (repointCond_true_iff mats m).mpr ⟨hwg, hd, hbase, hbne⟩
    have hmTR : m ∈ mats.filter (removeCond mats) :=
      List.mem_filter.mpr ⟨hm, hrc⟩
    have hcm : (mats.filter (removeCond mats)).contains m = true :=
      List.elem_iff.mpr hmTR
    have hbTR : matBase m ∉ mats.filter (removeCond mats) := by
      intro hmemb
      have h := (List.mem_filter.mp hmemb).2
      rw [removeCond_matBase hwg hd] at h
      exact Bool.noConfusion h
    have hcb : (mats.filter (removeCond mats)).contains (matBase m) = false := by
      by_contra h
      have h2 : (mats.filter (removeCond mats)).contains (matBase m) = true := by
        revert h; cases (mats.filter (removeCond mats)).contains (matBase m) <;> simp
      exact hbTR (List.elem_iff.mp h2)
    refine ⟨?_, ?_, ?_⟩
    · rw [hsnd]
      intro hmem
      have h := (List.mem_filter.mp hmem).2
      rw [hcm] at h
      exact Bool.noConfusion h
    · rw [hsnd]
      exact List.mem_filter.mpr ⟨hbase, by rw [hcb]; rfl⟩
    · intro i hi
      have h1 : (mats.foldl (matPassStep slots mats) (slots, [])).1[i]? =
          some (some (matBase m)) := by
        rw [hget1 i m hi, if_pos ⟨hm, hrp⟩]
      rw [hfst, List.getElem?_map, h1]
      have hred : unlinkAll (mats.filter (removeCond mats)) (some (matBase m)) =
          if (mats.filter (removeCond mats)).contains (matBase m) = true then none
          else some (matBase m) := rfl
      have hu : unlinkAll (mats.filter (removeCond mats)) (some (matBase m)) =
          some (matBase m) := by
        rw [hred, hcb]
        rfl
      rw [Option.map_some', hu]
  · intro hnb
    have hcontains : mats.contains (matBase m) = false := by
      by_contra h
      have h2 : mats.contains (matBase m) = true := by
        revert h; cases mats.contains (matBase m) <;> simp
      exact hnb (List.elem_iff.mp h2)
    have hrc : removeCond mats m = false := by
      by_contra h
      have h2 : removeCond mats m = true := by
        revert h; cases removeCond mats m <;> simp
      rcases (removeCond_true_iff mats m).mp h2 with hw | ⟨_, hb, _⟩
      · rw [hw] at hwg; exact Bool.noConfusion hwg
      · exact hnb hb
    have hrp : repointCond mats m = false := by
      by_contra h
      have h2 : repointCond mats m = true := by
        revert h; cases repointCond mats m <;> simp
      exact hnb ((repointCond_true_iff mats m).mp h2).2.2.1
    have hmTR : m ∉ mats.filter (removeCond mats) := by
      intro hmem
      have h := (List.mem_filter.mp hmem).2
      rw [hrc] at h
      exact Bool.noConfusion h
    have hcmf : (mats.filter (removeCond mats)).contains m = false := by
      by_contra h
      have h2 : (mats.filter (removeCond mats)).contains m = true := by
        revert h; cases (mats.filter (removeCond mats)).contains m <;> simp
      exact hmTR (List.elem_iff.mp h2)
    refine ⟨?_, ?_⟩
    · rw [hsnd]
      exact List.mem_filter.mpr ⟨hm, by rw [hcmf]; rfl⟩
    · intro i hi
      have h1 : (mats.foldl (matPassStep slots mats) (slots, [])).1[i]? =
          some (some m) := by
        rw [hget1 i m hi,
            if_neg (fun hc => by rw [hrp] at hc; exact Bool.noConfusion hc.2)]
        exact hi
      rw [hfst, List.getElem?_map, h1]
      have hred : unlinkAll (mats.filter (removeCond mats)) (some m) =
          if (mats.filter (removeCond mats)).contains m = true then none
          else some m := rfl
      have hu : unlinkAll (mats.filter (removeCond mats)) (some m) = some m := by
        rw [hred, hcmf]
        rfl
      rw [Option.map_some', hu]

/-- C8 counterexample: `WorldGridMaterial.001` has no base material present,
so by the claim it should be left in place; the loop nevertheless removes it
(the `WorldGridMaterial` branch fires first) and the deferred unlink clears
its slot. -/
theorem c8_counterexample :
    materialDedupPass ["WorldGridMaterial.001"] [some "WorldGridMaterial.001"] =
      ([none], []) := by
  rfl

/-- Witness for C8: with materials `Foo` and `Foo.001` and one slot on
`Foo.001`, the duplicate is removed, `Foo` survives, and the slot is
repointed to `Foo`. -/
theorem c8_witness :
    "Foo.001" ∉ (materialDedupPass ["Foo", "Foo.001"] [some "Foo.001"]).2 ∧
    matBase "Foo.001" ∈ (materialDedupPass ["Foo", "Foo.001"] [some "Foo.001"]).2 ∧
    (materialDedupPass ["Foo", "Foo.001"] [some "Foo.001"]).1[0]? =
      some (some (matBase "Foo.001")) := by
  have h := (c8_material_dedup ["Foo", "Foo.001"] [some "Foo.001"] "Foo.001"
    (by decide) (by decide) (by decide)).1 (by decide)
  exact ⟨h.1, h.2.1, h.2.2 0 (by decide)⟩


/-! ## C5: `parse_props_file` error behaviour -/

theorem mem_assocUpd {α : Type} {l : List (String × α)} {k : String} {v : α}
    {p : String × α} (hp : p ∈ assocUpd l k v) : p ∈ l ∨ p = (k, v) := by
  unfold assocUpd at hp
  split at hp
  · obtain ⟨kv, hkv, hg⟩ := List.mem_map.mp hp
    by_cases hk : kv.1 = k
    · rw [if_pos hk] at hg
      exact Or.inr hg.symm
    · rw [if_neg hk] at hg
      rw [← hg]
      exact Or.inl hkv
  · rcases List.mem_append.mp hp with hl | hr
    · exact Or.inl hl
    · exact Or.inr (List.mem_singleton.mp hr)

theorem assocUpd_mem_self {α : Type} (l : List (String × α)) (k : String)
    (v : α) : (k, v) ∈ assocUpd l k v := by
  unfold assocUpd
  split
  · next hany =>
    obtain ⟨kv, hkv, hk⟩ := List.any_eq_true.mp hany
    rw [decide_eq_true_eq] at hk
    refine List.mem_map.mpr ⟨kv, hkv, ?_⟩
    rw [if_pos hk]
  · exact List.mem_append.mpr (Or.inr (List.mem_singleton.mpr rfl))

theorem assocUpd_mem_key {α : Type} {l : List (String × α)} {a : String}
    (h : ∃ b, (a, b) ∈ l) (k : String) (v : α) :
    ∃ b, (a, b) ∈ assocUpd l k v := by
  obtain ⟨b, hb⟩ := h
  by_cases hk : a = k
  · exact ⟨v, by rw [hk]; exact assocUpd_mem_self l k v⟩
  · unfold assocUpd
    split
    · refine ⟨b, List.mem_map.mpr ⟨(a, b), hb, ?_⟩⟩
      dsimp only
      rw [if_neg hk]
    · exact ⟨b, List.mem_append.mpr (Or.inl hb)⟩

/-- One step of the scalar-parameter fold (the `try/except ValueError: pass`
body). -/
def scalarStep (acc : List (String × ℚ)) (nv : String × List Char) :
    List (String × ℚ) :=
  match pyFloatNum? nv.2 with
  | some q => assocUpd acc nv.1 q
  | none => acc

theorem scalarParamsOf_eq (content : List Char) :
    scalarParamsOf content =
      (finditer matchScalar content).foldl scalarStep [] := rfl

theorem scalarFold_sound :
    ∀ (l : List (String × List Char)) (acc : List (String × ℚ))
      (k : String) (q : ℚ),
      (k, q) ∈ l.foldl scalarStep acc →
      (k, q) ∈ acc ∨ ∃ v, (k, v) ∈ l ∧ pyFloatNum? v = some q := by
  intro l
  induction l with
  | nil => intro acc k q h; exact Or.inl h
  | cons nv rest ih =>
    intro acc k q h
    rw [List.foldl_cons] at h
    cases hpf : pyFloatNum? nv.2 with
    | none =>
      have hstep : scalarStep acc nv = acc := by
        unfold scalarStep; rw [hpf]
      rw [hstep] at h
      rcases ih acc k q h with hacc | ⟨v, hv, hq⟩
      · exact Or.inl hacc
      · exact Or.inr ⟨v, List.mem_cons_of_mem _ hv, hq⟩
    | some q0 =>
      have hstep : scalarStep acc nv = assocUpd acc nv.1 q0 := by
        unfold scalarStep; rw [hpf]
      rw [hstep] at h
      rcases ih _ k q h with hacc | ⟨v, hv, hq⟩
      · rcases mem_assocUpd hacc with hl | he
        · exact Or.inl hl
        · have hkk : k = nv.1 := congrArg Prod.fst he
          have hqq : q = q0 := congrArg Prod.snd he
          refine Or.inr ⟨nv.2, ?_, by rw [hqq, hpf]⟩
          rw [hkk]
          exact List.mem_cons_self _ _
      · exact Or.inr ⟨v, List.mem_cons_of_mem _ hv, hq⟩

theorem scalarFold_keeps :
    ∀ (l : List (String × List Char)) (acc : List (String × ℚ)) (a : String),
      (∃ b, (a, b) ∈ acc) → ∃ b, (a, b) ∈ l.foldl scalarStep acc := by
  intro l
  induction l with
  | nil => intro acc a h; exact h
  | cons nv rest ih =>
    intro acc a h
    rw [List.foldl_cons]
    apply ih
    cases hpf : pyFloatNum? nv.2 with
    | none =>
      have hstep : scalarStep acc nv = acc := by
        unfold scalarStep; rw [hpf]
      rw [hstep]
      exact h
    | some q0 =>
      have hstep : scalarStep acc nv = assocUpd acc nv.1 q0 := by
        unfold scalarStep; rw [hpf]
      rw [hstep]
      exact assocUpd_mem_key h nv.1 q0

theorem scalarFold_complete :
    ∀ (l : List (String × List Char)) (acc : List (String × ℚ))
      (n : String) (v : List Char) (q : ℚ),
      (n, v) ∈ l → pyFloatNum? v = some q →
      ∃ q2, (n, q2) ∈ l.foldl scalarStep acc := by
  intro l
  induction l with
  | nil => intro acc n v q h _; exact absurd h (List.not_mem_nil _)
  | cons nv rest ih =>
    intro acc n v q h hq
    rw [List.foldl_cons]
    rcases List.mem_cons.mp h with he | hrest
    · apply scalarFold_keeps
      have hv : v = nv.2 := congrArg Prod.snd he
      have hstep : scalarStep acc nv = assocUpd acc nv.1 q := by
        unfold scalarStep
        rw [show pyFloatNum? nv.2 = some q from by rw [← hv]; exact hq]
      rw [hstep]
      refine ⟨q, ?_⟩
      have hn : n = nv.1 := congrArg Prod.fst he
      rw [hn]
      exact assocUpd_mem_self acc nv.1 q
    · exact ih (scalarStep acc nv) n v q hrest hq

/-- One step of the vector-parameter fold (the four `float()` calls share
one `try/except ValueError: pass`; any failure skips the whole entry). -/
def vectorStep (acc : List (String × (ℚ × ℚ × ℚ × ℚ)))
    (t : List Char × List Char × List Char × List Char × String) :
    List (String × (ℚ × ℚ × ℚ × ℚ)) :=
  match pyFloatNum? t.1, pyFloatNum? t.2.1, pyFloatNum? t.2.2.1,
        pyFloatNum? t.2.2.2.1 with
  | some r, some g, some b, some a => assocUpd acc t.2.2.2.2 (r, g, b, a)
  | _, _, _, _ => acc

theorem vectorParamsOf_eq (content : List Char) :
    vectorParamsOf content =
      (finditer matchVector content).foldl vectorStep [] := rfl

theorem vectorStep_cases (acc : List (String × (ℚ × ℚ × ℚ × ℚ)))
    (t : List Char × List Char × List Char × List Char × String) :
    vectorStep acc t = acc ∨
    (∃ r g b a, pyFloatNum? t.1 = some r ∧ pyFloatNum? t.2.1 = some g ∧
        pyFloatNum? t.2.2.1 = some b ∧ pyFloatNum? t.2.2.2.1 = some a ∧
        vectorStep acc t = assocUpd acc t.2.2.2.2 (r, g, b, a)) := by
  cases h1 : pyFloatNum? t.1 with
  | none => exact Or.inl (by unfold vectorStep; rw [h1])
  | some r =>
    cases h2 : pyFloatNum? t.2.1 with
    | none => exact Or.inl (by unfold vectorStep; rw [h1, h2])
    | some g =>
      cases h3 : pyFloatNum? t.2.2.1 with
      | none => exact Or.inl (by unfold vectorStep; rw [h1, h2, h3])
      | some b =>
        cases h4 : pyFloatNum? t.2.2.2.1 with
        | none => exact Or.inl (by unfold vectorStep; rw [h1, h2, h3, h4])
        | some a =>
          exact Or.inr ⟨r, g, b, a, rfl, rfl, rfl, rfl,
            by unfold vectorStep; rw [h1, h2, h3, h4]⟩

theorem vectorFold_sound :
    ∀ (l : List (List Char × List Char × List Char × List Char × String))
      (acc : List (String × (ℚ × ℚ × ℚ × ℚ)))
      (k : String) (v : ℚ × ℚ × ℚ × ℚ),
      (k, v) ∈ l.foldl vectorStep acc →
      (k, v) ∈ acc ∨
        ∃ t, t ∈ l ∧ t.2.2.2.2 = k ∧
          pyFloatNum? t.1 = some v.1 ∧ pyFloatNum? t.2.1 = some v.2.1 ∧
          pyFloatNum? t.2.2.1 = some v.2.2.1 ∧
          pyFloatNum? t.2.2.2.1 = some v.2.2.2 := by
  intro l
  induction l with
  | nil => intro acc k v h; exact Or.inl h
  | cons t rest ih =>
    intro acc k v h
    rw [List.foldl_cons] at h
    rcases vectorStep_cases acc t with hid | ⟨r, g, b, a, h1, h2, h3, h4, hstep⟩
    · rw [hid] at h
      rcases ih acc k v h with hacc | ⟨t2, ht2, hk, hr, hg, hb, ha⟩
      · exact Or.inl hacc
      · exact Or.inr ⟨t2, List.mem_cons_of_mem _ ht2, hk, hr, hg, hb, ha⟩
    · rw [hstep] at h
      rcases ih _ k v h with hacc | ⟨t2, ht2, hk, hr, hg, hb, ha⟩
      · rcases mem_assocUpd hacc with hl | he
        · exact Or.inl hl
        · have hkk : k = t.2.2.2.2 := congrArg Prod.fst he
          have hvv : v = (r, g, b, a) := congrArg Prod.snd he
          refine Or.inr ⟨t, List.mem_cons_self _ _, hkk.symm, ?_, ?_, ?_, ?_⟩
          · rw [hvv]; exact h1
          · rw [hvv]; exact h2
          · rw [hvv]; exact h3
          · rw [hvv]; exact h4
      · exact Or.inr ⟨t2, List.mem_cons_of_mem _ ht2, hk, hr, hg, hb, ha⟩

theorem vectorFold_keeps :
    ∀ (l : List (List Char × List Char × List Char × List Char × String))
      (acc : List (String × (ℚ × ℚ × ℚ × ℚ))) (nm : String),
      (∃ b, (nm, b) ∈ acc) → ∃ b, (nm, b) ∈ l.foldl vectorStep acc := by
  intro l
  induction l with
  | nil => intro acc nm h; exact h
  | cons t rest ih =>
    intro acc nm h
    rw [List.foldl_cons]
    apply ih
    rcases vectorStep_cases acc t with hid | ⟨r, g, b, a, _, _, _, _, hstep⟩
    · rw [hid]; exact h
    · rw [hstep]
      exact assocUpd_mem_key h _ _

theorem vectorFold_complete :
    ∀ (l : List (List Char × List Char × List Char × List Char × String))
      (acc : List (String × (ℚ × ℚ × ℚ × ℚ)))
      (t : List Char × List Char × List Char × List Char × String)
      (r g b a : ℚ),
      t ∈ l → pyFloatNum? t.1 = some r → pyFloatNum? t.2.1 = some g →
      pyFloatNum? t.2.2.1 = some b → pyFloatNum? t.2.2.2.1 = some a →
      ∃ v, (t.2.2.2.2, v) ∈ l.foldl vectorStep acc := by
  intro l
  induction l with
  | nil => intro acc t r g b a h _ _ _ _; exact absurd h (List.not_mem_nil _)
  | cons t0 rest ih =>
    intro acc t r g b a h h1 h2 h3 h4
    rw [List.foldl_cons]
    rcases List.mem_cons.mp h with he | hrest
    · apply vectorFold_keeps
      subst he
      have hstep : vectorStep acc t = assocUpd acc t.2.2.2.2 (r, g, b, a) := by
        unfold vectorStep
        rw [h1, h2, h3, h4]
      rw [hstep]
      exact ⟨(r, g, b, a), assocUpd_mem_self _ _ _⟩
    · exact ih (vectorStep acc t0) t r g b a hrest h1 h2 h3 h4

theorem parsePropsContent_err {content cap : List Char}
    (hs : searchO matchOpacity content = some cap)
    (hf : pyFloatNum? cap = none) :
    parsePropsContent content =
      Except.error "ValueError: could not convert string to float" := by
  unfold parsePropsContent
  dsimp only
  rw [hs]
  dsimp only
  rw [hf]

theorem parsePropsContent_ok_some {content cap : List Char} {q : ℚ}
    (hs : searchO matchOpacity content = some cap)
    (hf : pyFloatNum? cap = some q) :
    parsePropsContent content = Except.ok
      { blend_mode := (searchO matchBlend content).getD 0,
        two_sided := (searchO matchTwoSided content).getD false,
        opacity_clip := q,
        scalar_params := scalarParamsOf content,
        vector_params := vectorParamsOf content,
        texture_params := some (textureParamsOf content) } := by
  unfold parsePropsContent
  dsimp only
  rw [hs]
  dsimp only
  rw [hf]
  cases searchO matchBlend content <;> cases searchO matchTwoSided content <;> rfl

theorem parsePropsContent_ok_none {content : List Char}
    (hs : searchO matchOpacity content = none) :
    parsePropsContent content = Except.ok
      { blend_mode := (searchO matchBlend content).getD 0,
        two_sided := (searchO matchTwoSided content).getD false,
        opacity_clip := 1 / 2,
        scalar_params := scalarParamsOf content,
        vector_params := vectorParamsOf content,
        texture_params := some (textureParamsOf content) } := by
  unfold parsePropsContent
  dsimp only
  rw [hs]
  cases searchO matchBlend content <;> cases searchO matchTwoSided content <;> rfl

/-- C5 (amended): a failed read returns the initial dict (blend 0, not
two-sided, clip 1/2, empty scalar and vector maps and no `texture_params`
key), and individual malformed numeric parameter entries — scalar, and
vector, whose four `float()` calls share one `try/except` — are skipped
while well-formed ones land in their maps without disturbing the other
fields; but the function is not raise-free: it raises exactly when the
content has an `OpacityMaskClipValue` match whose capture is not
float-convertible, since that one `float()` call is unguarded. -/
theorem c5_parse_props (readFile : String → Option (List Char))
    (fp : String) :
    (readFile fp = none →
      parse_props_file readFile fp = Except.ok defaultPropsResult) ∧
    (∀ content, readFile fp = some content →
      (((∃ e, parse_props_file readFile fp = Except.error e) ↔
          ∃ cap, searchO matchOpacity content = some cap ∧
            pyFloatNum? cap = none) ∧
       (∀ cap q, searchO matchOpacity content = some cap →
          pyFloatNum? cap = some q →
          parse_props_file readFile fp = Except.ok
            { blend_mode := (searchO matchBlend content).getD 0,
              two_sided := (searchO matchTwoSided content).getD false,
              opacity_clip := q,
              scalar_params := scalarParamsOf content,
              vector_params := vectorParamsOf content,
              texture_params := some (textureParamsOf content) }) ∧
       (searchO matchOpacity content = none →
          parse_props_file readFile fp = Except.ok
            { blend_mode := (searchO matchBlend content).getD 0,
              two_sided := (searchO matchTwoSided content).getD false,
              opacity_clip := 1 / 2,
              scalar_params := scalarParamsOf content,
              vector_params := vectorParamsOf content,
              texture_params := some (textureParamsOf content) }) ∧
       (∀ k q, (k, q) ∈ scalarParamsOf content →
          ∃ v, (k, v) ∈ finditer matchScalar content ∧
            pyFloatNum? v = some q) ∧
       (∀ n v q, (n, v) ∈ finditer matchScalar content →
          pyFloatNum? v = some q →
          ∃ q2, (n, q2) ∈ scalarParamsOf content) ∧
       (∀ k v, (k, v) ∈ vectorParamsOf content →
          ∃ t, t ∈ finditer matchVector content ∧ t.2.2.2.2 = k ∧
            pyFloatNum? t.1 = some v.1 ∧ pyFloatNum? t.2.1 = some v.2.1 ∧
            pyFloatNum? t.2.2.1 = some v.2.2.1 ∧
            pyFloatNum? t.2.2.2.1 = some v.2.2.2) ∧
       (∀ t r g b a, t ∈ finditer matchVector content →
          pyFloatNum? t.1 = some r → pyFloatNum? t.2.1 = some g →
          pyFloatNum? t.2.2.1 = some b → pyFloatNum? t.2.2.2.1 = some a →
          ∃ v, (t.2.2.2.2, v) ∈ vectorParamsOf content))) := by
  refine ⟨?_, ?_⟩
  · intro hn
    unfold parse_props_file
    rw [hn]
  · intro content hc
    have hpf : parse_props_file readFile fp = parsePropsContent content := by
      unfold parse_props_file
      rw [hc]
    refine ⟨?_, ?_, ?_, ?_, ?_, ?_, ?_⟩
    · constructor
      · rintro ⟨e, he⟩
        rw [hpf] at he
        cases hs : searchO matchOpacity content with
        | none =>
          rw [parsePropsContent_ok_none hs] at he
          exact Except.noConfusion he
        | some cap =>
          cases hfo : pyFloatNum? cap with
          | none => exact ⟨cap, rfl, hfo⟩
          | some q =>
            rw [parsePropsContent_ok_some hs hfo] at he
            exact Except.noConfusion he
      · rintro ⟨cap, hs, hfo⟩
        exact ⟨_, by rw [hpf]; exact parsePropsContent_err hs hfo⟩
    · intro cap q hs hfo
      rw [hpf]
      exact parsePropsContent_ok_some hs hfo
    · intro hs
      rw [hpf]
      exact parsePropsContent_ok_none hs
    · intro k q hk
      rcases scalarFold_sound (finditer matchScalar content) [] k q
        (by rw [← scalarParamsOf_eq]; exact hk) with habs | hgood
      · exact absurd habs (List.not_mem_nil _)
      · exact hgood
    · intro n v q hm hq
      rw [scalarParamsOf_eq]
      exact scalarFold_complete (finditer matchScalar content) [] n v q hm hq
    · intro k v hk
      rcases vectorFold_sound (finditer matchVector content) [] k v
        (by rw [← vectorParamsOf_eq]; exact hk) with habs | hgood
      · exact absurd habs (List.not_mem_nil _)
      · exact hgood
    · intro t r g b a hm h1 h2 h3 h4
      rw [vectorParamsOf_eq]
      exact vectorFold_complete (finditer matchVector content) [] t r g b a
        hm h1 h2 h3 h4

/-- C5 counterexample: the claim says `parse_props_file` never raises, but
content whose `OpacityMaskClipValue` capture is not float-convertible hits
the unguarded `float()` and the parse raises `ValueError`. -/
theorem c5_counterexample :
    parse_props_file (fun _ => some "OpacityMaskClipValue = ...".data)
      "m.props" =
      Except.error "ValueError: could not convert string to float" := by
  rfl

/-- Witness for C5: a failed read yields exactly the default result. -/
theorem c5_witness :
    parse_props_file (fun _ => none) "a.props" =
      Except.ok defaultPropsResult :=
  (c5_parse_props (fun _ => none) "a.props").1 rfl


end LiSR
